import Mathlib

/-!
Verification of the configuration document manager of
src/Resources/Server/EconomyTest/config_editor.py.

The Python module manipulates JSON-like values (the parsed configuration
file), Python dicts (modelled as association lists with first-occurrence
lookup, in-place replacement and append-on-absence, which is exact for the
duplicate-free dicts Python produces), and the registry of Qt widgets
(self.widgets).  The functions load_config, save_config, reset_to_defaults,
apply_feature_dependencies and populate_ui are translated below statement
by statement.  Floating point JSON numbers are outside the model: every
configuration value handled by the program is an integer, a boolean, a
string, null, or a nesting of arrays and objects of those.
-/

set_option autoImplicit false

namespace ConfigEditor

/-- Exceptions that the modelled Python code can raise. -/
inductive PyErr
  | typeError
  | attributeError
  | valueError
  | keyError
deriving DecidableEq, Repr

/-- A parsed JSON value as produced by json.load: int, bool, string, null,
array, or object (a Python dict, in insertion order). -/
inductive JVal
  | int (n : Int)
  | bool (b : Bool)
  | str (s : String)
  | null
  | arr (elems : List JVal)
  | obj (entries : List (String × JVal))
deriving Repr

/-! Boolean equality on JSON values (structural). -/
mutual
def jbeq : JVal → JVal → Bool
  | .int n, .int m => n == m
  | .bool a, .bool b => a == b
  | .str a, .str b => a == b
  | .null, .null => true
  | .arr a, .arr b => jbeqList a b
  | .obj a, .obj b => jbeqObj a b
  | _, _ => false
def jbeqList : List JVal → List JVal → Bool
  | [], [] => true
  | x :: xs, y :: ys => jbeq x y && jbeqList xs ys
  | _, _ => false
def jbeqObj : List (String × JVal) → List (String × JVal) → Bool
  | [], [] => true
  | (k1, v1) :: xs, (k2, v2) :: ys => k1 == k2 && jbeq v1 v2 && jbeqObj xs ys
  | _, _ => false
end

set_option maxHeartbeats 1000000 in
theorem jbeq_iff : ∀ a b : JVal, jbeq a b = true ↔ a = b := by
  have h := jbeq.induct
    (fun a b => jbeq a b = true ↔ a = b)
    (fun a b => jbeqObj a b = true ↔ a = b)
    (fun a b => jbeqList a b = true ↔ a = b)
  apply h
  · intro n m
    rw [show jbeq (.int n) (.int m) = (n == m) from rfl]
    simp
  · intro a b
    rw [show jbeq (.bool a) (.bool b) = (a == b) from rfl]
    simp
  · intro a b
    rw [show jbeq (.str a) (.str b) = (a == b) from rfl]
    simp
  · rw [show jbeq .null .null = true from rfl]
    simp
  · intro a b ih
    rw [show jbeq (.arr a) (.arr b) = jbeqList a b from rfl, ih]
    simp
  · intro a b ih
    rw [show jbeq (.obj a) (.obj b) = jbeqObj a b from rfl, ih]
    simp
  · intro t x h1 h2 h3 h4 h5 h6
    cases t <;> cases x <;>
      first
      | exact (h1 _ _ rfl rfl).elim
      | exact (h2 _ _ rfl rfl).elim
      | exact (h3 _ _ rfl rfl).elim
      | exact (h4 rfl rfl).elim
      | exact (h5 _ _ rfl rfl).elim
      | exact (h6 _ _ rfl rfl).elim
      | exact iff_of_false (fun hh => nomatch hh) (fun hh => nomatch hh)
  · rw [show jbeqList [] [] = true from rfl]
    simp
  · intro x xs y ys ih1 ih2
    rw [show jbeqList (x :: xs) (y :: ys) = (jbeq x y && jbeqList xs ys) from rfl]
    simp [ih1, ih2]
  · intro t x h1 h2
    cases t <;> cases x <;>
      first
      | exact (h1 rfl rfl).elim
      | exact (h2 _ _ _ _ rfl rfl).elim
      | exact iff_of_false (fun hh => nomatch hh) (fun hh => nomatch hh)
  · rw [show jbeqObj [] [] = true from rfl]
    simp
  · intro k1 v1 xs k2 v2 ys ih1 ih2
    rw [show jbeqObj ((k1, v1) :: xs) ((k2, v2) :: ys)
          = (k1 == k2 && jbeq v1 v2 && jbeqObj xs ys) from rfl]
    simp [ih1, ih2, and_assoc]
  · intro t x h1 h2
    cases t <;> cases x <;>
      first
      | exact (h1 rfl rfl).elim
      | (rename_i a b c d; exact (h2 a.1 a.2 b c.1 c.2 d rfl rfl).elim)
      | exact iff_of_false (fun hh => nomatch hh) (fun hh => nomatch hh)

instance : DecidableEq JVal := fun a b => decidable_of_iff (jbeq a b = true) (jbeq_iff a b)

/-- A Python dict holding JSON values: the type of self.config_data and of
each of its category sub-dicts. -/
abbrev Dict := List (String × JVal)

/-- Python dict lookup d[k] / d.get(k): the value at the first matching key. -/
def dget {α : Type} : List (String × α) → String → Option α
  | [], _ => none
  | (k2, v) :: rest, k => if k2 = k then some v else dget rest k

/-- Python membership test k in d. -/
def dhas {α : Type} : List (String × α) → String → Bool
  | [], _ => false
  | (k2, _) :: rest, k => decide (k2 = k) || dhas rest k

/-- Python dict assignment d[k] = v: replace the value at an existing key in
place, append the pair at the end otherwise. -/
def dset {α : Type} : List (String × α) → String → α → List (String × α)
  | [], k, v => [(k, v)]
  | (k2, v2) :: rest, k, v =>
    if k2 = k then (k2, v) :: rest else (k2, v2) :: dset rest k v

/-- Python d.setdefault(k, v): keep an existing entry, append (k, v)
otherwise. -/
def dsetdefault {α : Type} : List (String × α) → String → α → List (String × α)
  | [], k, v => [(k, v)]
  | (k2, v2) :: rest, k, v =>
    if k2 = k then (k2, v2) :: rest else (k2, v2) :: dsetdefault rest k v

/-- The FALLBACK_DEFAULTS table of config_editor.py (lines 16 to 36),
verbatim and in source order. -/
def FALLBACK_DEFAULTS : List (String × Dict) :=
  [("features",
     [("roleplay_enabled", .bool true), ("money_per_minute_enabled", .bool true),
      ("cool_message_enabled", .bool true), ("speeding_bonus_enabled", .bool true),
      ("zigzag_bonus_enabled", .bool true), ("police_features_enabled", .bool true)]),
   ("general", [("autosave_interval_ms", .int 120000)]),
   ("money",
     [("money_per_minute_interval_ms", .int 60000), ("money_per_minute_amount", .int 10),
      ("starting_money", .int 3333), ("cool_message_interval_ms", .int 30000)]),
   ("civilian",
     [("speeding_limit_kmh", .int 100), ("speeding_bonus_duration_ms", .int 60000),
      ("speeding_cooldown_ms", .int 200000), ("speeding_bonus_per_second", .int 1),
      ("zigzag_bonus_duration_ms", .int 120000), ("zigzag_cooldown_ms", .int 200000),
      ("zigzag_final_bonus_amount", .int 50), ("zigzag_prorated_bonus", .int 5),
      ("min_speed_kmh_for_zigzag", .int 10), ("zigzag_min_turns", .int 5),
      ("wanted_fail_penalty", .int 50)]),
   ("police",
     [("police_proximity_range_m", .int 150), ("busted_range_m", .int 20),
      ("busted_stop_time_ms", .int 7000), ("busted_speed_limit_kmh", .int 5),
      ("police_bonus_per_second", .int 2), ("bust_bonus_amount", .int 100)])]

/-- The dict comprehension of lines 359 and 402: a dict mapping each k of
FALLBACK_DEFAULTS to v.copy().  Both mapping levels are freshly copied; the
scalar values are shared but immutable. -/
def freshDefaults : Dict :=
  FALLBACK_DEFAULTS.map (fun kv => (kv.1, JVal.obj kv.2))

/-! ### Python string and int conversions -/

/-- The decimal digit character for a value below ten. -/
def digitChar (n : Nat) : Char := Char.ofNat (48 + n)

/-- Decimal digits of a natural number, least significant first (fuel-based
so that it reduces; the fuel n + 1 always suffices since the value shrinks
by a factor of ten per step). -/
def natDigitsRevAux : Nat → Nat → List Char
  | 0, _ => []
  | fuel+1, n =>
    if n < 10 then [digitChar n]
    else digitChar (n % 10) :: natDigitsRevAux fuel (n / 10)

/-- Decimal digits of a natural number, least significant first. -/
def natDigitsRev (n : Nat) : List Char := natDigitsRevAux (n + 1) n

/-- Python str(n) for a non-negative int. -/
def natStr (n : Nat) : String := String.mk (natDigitsRev n).reverse

/-- Python str(n) for an int: decimal digits with a leading minus sign for
negative values. -/
def intStr (n : Int) : String :=
  if n < 0 then "-" ++ natStr n.natAbs else natStr n.toNat

/-- ASCII decimal digit test. -/
def isAsciiDigit (c : Char) : Bool := 48 ≤ c.toNat && c.toNat ≤ 57

/-- Whitespace characters stripped by str.strip() (the ASCII ones: space,
tab, newline, carriage return, vertical tab, form feed; exotic Unicode
whitespace is outside the model). -/
def pyIsSpace (c : Char) : Bool :=
  c = ' ' || c = '\t' || c = '\n' || c = '\r' || c = Char.ofNat 11 || c = Char.ofNat 12

/-- Python s.strip(): drop whitespace from both ends. -/
def pyStrip (s : String) : String :=
  String.mk (((s.data.dropWhile pyIsSpace).reverse.dropWhile pyIsSpace).reverse)

/-- Remaining characters of a Python int literal after its first digit:
further digits with single underscores allowed between digits. -/
def parseDigitsAux : List Char → Nat → Option Nat
  | [], acc => some acc
  | c :: rest, acc =>
    if isAsciiDigit c then parseDigitsAux rest (acc * 10 + (c.toNat - 48))
    else if c = '_' then
      match rest with
      | c2 :: rest2 =>
        if isAsciiDigit c2 then parseDigitsAux rest2 (acc * 10 + (c2.toNat - 48))
        else none
      | [] => none
    else none

/-- An unsigned Python int literal: a digit followed by digits with single
underscores between digits. -/
def parseUnsignedPyInt : List Char → Option Nat
  | [] => none
  | c :: rest => if isAsciiDigit c then parseDigitsAux rest (c.toNat - 48) else none

/-- Python int(s) on an already stripped string: an optional sign followed
by an unsigned literal; anything else raises ValueError.  (Non-ASCII digits
are outside the model.) -/
def pyInt (s : String) : Except PyErr Int :=
  match s.data with
  | [] => .error .valueError
  | c :: rest =>
    if c = '+' then
      match parseUnsignedPyInt rest with
      | some n => .ok (Int.ofNat n)
      | none => .error .valueError
    else if c = '-' then
      match parseUnsignedPyInt rest with
      | some n => .ok (-(Int.ofNat n))
      | none => .error .valueError
    else
      match parseUnsignedPyInt (c :: rest) with
      | some n => .ok (Int.ofNat n)
      | none => .error .valueError

/-- A single quote character, used by Python repr of strings. -/
def sq : String := String.singleton (Char.ofNat 39)

/-! Python repr of a JSON-like value, used by str() on containers.  String
escaping inside repr is simplified (no claim depends on it: any repr of a
string, array or object starts with a quote or a bracket and never parses
as an int). -/
mutual
def pyRepr : JVal → String
  | .int n => intStr n
  | .bool true => "True"
  | .bool false => "False"
  | .str s => sq ++ s ++ sq
  | .null => "None"
  | .arr l => "[" ++ pyReprElems l ++ "]"
  | .obj d => "\x7b" ++ pyReprEntries d ++ "\x7d"
def pyReprElems : List JVal → String
  | [] => ""
  | [v] => pyRepr v
  | v :: rest => pyRepr v ++ ", " ++ pyReprElems rest
def pyReprEntries : List (String × JVal) → String
  | [] => ""
  | [(k, v)] => sq ++ k ++ sq ++ ": " ++ pyRepr v
  | (k, v) :: rest => sq ++ k ++ sq ++ ": " ++ pyRepr v ++ ", " ++ pyReprEntries rest
end

/-- Python str(value) as applied by populate_ui to a loaded value. -/
def pyStr : JVal → String
  | .int n => intStr n
  | .bool true => "True"
  | .bool false => "False"
  | .str s => s
  | .null => "None"
  | .arr l => pyRepr (.arr l)
  | .obj d => pyRepr (.obj d)

/-- Python bool(value) as applied by populate_ui through setChecked. -/
def pyBool : JVal → Bool
  | .int n => n != 0
  | .bool b => b
  | .str s => s != ""
  | .null => false
  | .arr l => !l.isEmpty
  | .obj d => !d.isEmpty

/-! ### The widget registry

self.widgets maps a name either to a plain widget (a QLabel under a
label_... key, a QGroupBox under a ..._settings_title key, or the checkbox
alias also stored under its label_... key) or to a per-category dict of
input widgets.  Input widgets carry the state the document manager reads
and writes: the text of a QLineEdit, the checked state of a QCheckBox, and
the enabled flag toggled by apply_feature_dependencies. -/

/-- An input widget: a QLineEdit (text, enabled) or a QCheckBox
(checked, enabled). -/
inductive Widget
  | line (text : String) (enabled : Bool)
  | check (checked : Bool) (enabled : Bool)
deriving DecidableEq, Repr

/-- An entry of self.widgets: a plain widget (on which .items() raises
AttributeError) or a category table of input widgets. -/
inductive WEntry
  | single
  | table (fields : List (String × Widget))
deriving DecidableEq, Repr

/-- The self.widgets dict, in insertion order. -/
abbrev Widgets := List (String × WEntry)

/-- A freshly constructed QLineEdit: empty text, enabled. -/
def lineInit : Widget := .line "" true

/-- A freshly constructed QCheckBox: unchecked, enabled. -/
def checkInit : Widget := .check false true

/-- self.widgets as built by init_ui, in exact insertion order: the
features group (the checkbox aliases also live under their label_... keys),
then the general, money, civilian and police groups, each interleaving its
group box, its label entries and its category table exactly as the
create_... helpers insert them. -/
def initWidgets : Widgets :=
  [("features_settings_title", .single),
   ("label_roleplay_enabled", .single),
   ("features", .table
     [("roleplay_enabled", checkInit), ("speeding_bonus_enabled", checkInit),
      ("zigzag_bonus_enabled", checkInit), ("police_features_enabled", checkInit),
      ("money_per_minute_enabled", checkInit), ("cool_message_enabled", checkInit)]),
   ("label_speeding_bonus_enabled", .single),
   ("label_zigzag_bonus_enabled", .single),
   ("label_police_features_enabled", .single),
   ("label_money_per_minute_enabled", .single),
   ("label_cool_message_enabled", .single),
   ("general_settings_title", .single),
   ("label_autosave_interval_ms", .single),
   ("general", .table [("autosave_interval_ms", lineInit)]),
   ("money_settings_title", .single),
   ("label_starting_money", .single),
   ("money", .table
     [("starting_money", lineInit), ("money_per_minute_amount", lineInit),
      ("money_per_minute_interval_ms", lineInit), ("cool_message_interval_ms", lineInit)]),
   ("label_money_per_minute_amount", .single),
   ("label_money_per_minute_interval_ms", .single),
   ("label_cool_message_interval_ms", .single),
   ("civilian_settings_title", .single),
   ("label_speeding_limit_kmh", .single),
   ("civilian", .table
     [("speeding_limit_kmh", lineInit), ("speeding_bonus_per_second", lineInit),
      ("speeding_bonus_duration_ms", lineInit), ("speeding_cooldown_ms", lineInit),
      ("min_speed_kmh_for_zigzag", lineInit), ("zigzag_min_turns", lineInit),
      ("zigzag_final_bonus_amount", lineInit), ("zigzag_prorated_bonus", lineInit),
      ("zigzag_bonus_duration_ms", lineInit), ("zigzag_cooldown_ms", lineInit),
      ("wanted_fail_penalty", lineInit)]),
   ("label_speeding_bonus_per_second", .single),
   ("label_speeding_bonus_duration_ms", .single),
   ("label_speeding_cooldown_ms", .single),
   ("label_min_speed_kmh_for_zigzag", .single),
   ("label_zigzag_min_turns", .single),
   ("label_zigzag_final_bonus_amount", .single),
   ("label_zigzag_prorated_bonus", .single),
   ("label_zigzag_bonus_duration_ms", .single),
   ("label_zigzag_cooldown_ms", .single),
   ("label_wanted_fail_penalty", .single),
   ("police_settings_title", .single),
   ("label_police_proximity_range_m", .single),
   ("police", .table
     [("police_proximity_range_m", lineInit), ("busted_range_m", lineInit),
      ("busted_stop_time_ms", lineInit), ("busted_speed_limit_kmh", lineInit),
      ("bust_bonus_amount", lineInit), ("police_bonus_per_second", lineInit)]),
   ("label_busted_range_m", .single),
   ("label_busted_stop_time_ms", .single),
   ("label_busted_speed_limit_kmh", .single),
   ("label_bust_bonus_amount", .single),
   ("label_police_bonus_per_second", .single)]

/-- True for a QLineEdit, false for a QCheckBox. -/
def isLineWidget : Widget → Bool
  | .line _ _ => true
  | .check _ _ => false

/-- The shape of a registry entry: its kind and, for a table, its field
names and widget kinds (the per-widget state is erased). -/
def entryShape : WEntry → Option (List (String × Bool))
  | .single => none
  | .table fs => some (fs.map (fun kv => (kv.1, isLineWidget kv.2)))

/-- The shape of the whole registry: names, entry kinds, field names and
widget kinds, with the mutable state erased. -/
def wShape (w : Widgets) : List (String × Option (List (String × Bool))) :=
  w.map (fun kv => (kv.1, entryShape kv.2))

/-- A widget registry as the running program has it: the fixed structure
built by init_ui, with arbitrary text / checked / enabled state. -/
def WidgetsWf (w : Widgets) : Prop := wShape w = wShape initWidgets

instance (w : Widgets) : Decidable (WidgetsWf w) := by
  unfold WidgetsWf
  infer_instance

/-! ### apply_feature_dependencies (lines 346 to 352) -/

/-- QCheckBox.isChecked().  (In the program this is only ever called on the
roleplay_enabled checkbox; the line-edit branch is unreachable.) -/
def isChecked : Widget → Bool
  | .check b _ => b
  | .line _ _ => false

/-- QWidget.setEnabled(b). -/
def setWidgetEnabled (b : Bool) : Widget → Widget
  | .line t _ => .line t b
  | .check c _ => .check c b

/-- The feature checkboxes appended to self.roleplay_dependent_widgets in
create_features_settings. -/
def dependentFeatureKeys : List String :=
  ["speeding_bonus_enabled", "zigzag_bonus_enabled", "police_features_enabled"]

/-- apply_feature_dependencies: read the roleplay_enabled checkbox and
setEnabled every widget of self.roleplay_dependent_widgets accordingly:
the three dependent feature checkboxes and the civilian and police group
boxes.  Disabling a group box disables its child input widgets, so the
model sets the enabled flag of every civilian and police widget.  A missing
features table or roleplay_enabled key is swallowed (except KeyError:
pass); in the program the registry always has them. -/
def apply_feature_dependencies (w : Widgets) : Widgets :=
  match dget w "features" with
  | some (.table fs) =>
    match dget fs "roleplay_enabled" with
    | some wd =>
      let b := isChecked wd
      w.map (fun kv =>
        match kv with
        | (name, .table fs2) =>
          if name = "features" then
            (name, .table (fs2.map (fun f =>
              if dependentFeatureKeys.contains f.1 then (f.1, setWidgetEnabled b f.2) else f)))
          else if name = "civilian" || name = "police" then
            (name, .table (fs2.map (fun f => (f.1, setWidgetEnabled b f.2))))
          else kv
        | _ => kv)
    | none => w
  | _ => w

/-! ### populate_ui (lines 369 to 377) -/

/-- Writing a loaded value into an input widget: setText(str(value)) for a
QLineEdit, setChecked(bool(value)) for a QCheckBox. -/
def setWidgetFrom (wd : Widget) (v : JVal) : Widget :=
  match wd with
  | .line _ en => .line (pyStr v) en
  | .check _ en => .check (pyBool v) en

/-- The inner loop of populate_ui over one category table: each widget gets
the loaded value at its key unless that value is absent or None. -/
def populateTable (c : Dict) (fs : List (String × Widget)) : List (String × Widget) :=
  fs.map (fun kv =>
    match dget c kv.1 with
    | some .null => kv
    | some v => (kv.1, setWidgetFrom kv.2 v)
    | none => kv)

/-- The outer loop of populate_ui over self.widgets: entries whose name is
a key of config_data are filled from it; calling .items() on a plain
widget raises AttributeError, and .get on a non-dict category value raises
AttributeError as well. -/
def populateEntries (cfg : Dict) : Widgets → Except PyErr Widgets
  | [] => .ok []
  | (name, e) :: rest =>
    if dhas cfg name then
      match e with
      | .single => .error .attributeError
      | .table fs =>
        match dget cfg name with
        | some (.obj c) =>
          match populateEntries cfg rest with
          | .ok rest2 => .ok ((name, .table (populateTable c fs)) :: rest2)
          | .error er => .error er
        | some _ => .error .attributeError
        | none => .error .keyError
    else
      match populateEntries cfg rest with
      | .ok rest2 => .ok ((name, e) :: rest2)
      | .error er => .error er

/-- populate_ui: fill every registered input widget from config_data, then
apply_feature_dependencies. -/
def populate_ui (cfg : Dict) (w : Widgets) : Except PyErr Widgets :=
  match populateEntries cfg w with
  | .ok w2 => .ok (apply_feature_dependencies w2)
  | .error er => .error er

/-! ### load_config (lines 354 to 367) -/

/-- The three states the configuration file can be in: absent
(FileNotFoundError), present but not JSON (json.JSONDecodeError), or
parsed to a JSON value. -/
inductive FileState
  | missing
  | unparsable
  | parsed (content : JVal)

/-- The value of self.config_data right after the try/except of
load_config: the parsed file content, or a fresh two-level copy of
FALLBACK_DEFAULTS when the file is missing or unparsable. -/
def initialDoc (fs : FileState) : JVal :=
  match fs with
  | .missing => .obj freshDefaults
  | .unparsable => .obj freshDefaults
  | .parsed v => v

/-- The body of the defaulting loop for one category: ensure the category
key exists (assigning an empty dict if absent), then setdefault every
default field into it.  If the value at the category key is not a dict,
.setdefault raises AttributeError. -/
def ensureCategory (cfg : Dict) (cat : String) (fields : Dict) : Except PyErr Dict :=
  let cfg2 := if dhas cfg cat then cfg else dset cfg cat (.obj [])
  match dget cfg2 cat with
  | some (.obj c) =>
    .ok (dset cfg2 cat (.obj (fields.foldl (fun c2 kv => dsetdefault c2 kv.1 kv.2) c)))
  | some _ => .error .attributeError
  | none => .error .keyError

/-- The defaulting loop of load_config over a list of defaults
categories. -/
def applyDefaultsFrom : List (String × Dict) → Dict → Except PyErr Dict
  | [], cfg => .ok cfg
  | (cat, fields) :: rest, cfg =>
    match ensureCategory cfg cat fields with
    | .ok cfg2 => applyDefaultsFrom rest cfg2
    | .error e => .error e

/-- The defaulting pass of load_config (lines 361 to 365) on the raw
config_data value.  When config_data is not a dict, the category membership
test or the category assignment raises TypeError (uncaught). -/
def applyDefaults : JVal → Except PyErr Dict
  | .obj cfg => applyDefaultsFrom FALLBACK_DEFAULTS cfg
  | _ => .error .typeError

/-- load_config: read the file (falling back to fresh defaults when missing
or unparsable), run the defaulting pass, then populate_ui.  Any exception
outside the try/except of lines 355 to 359 propagates to the caller. -/
def load_config (fs : FileState) (w : Widgets) : Except PyErr (Dict × Widgets) :=
  match applyDefaults (initialDoc fs) with
  | .error e => .error e
  | .ok cfg =>
    match populate_ui cfg w with
    | .error e => .error e
    | .ok w2 => .ok (cfg, w2)

/-! ### save_config (lines 379 to 396) -/

/-- The committed value of one input widget: int(text.strip()) with empty
text coerced to 0 for a QLineEdit (ValueError on unparsable text), the
checked state for a QCheckBox. -/
def commitValue (wd : Widget) : Except PyErr JVal :=
  match wd with
  | .line t _ =>
    let s := pyStrip t
    if s = "" then .ok (.int 0)
    else
      match pyInt s with
      | .ok n => .ok (.int n)
      | .error e => .error e
  | .check b _ => .ok (.bool b)

/-- self.config_data[category][key] = v: TypeError when the category value
is not a dict. -/
def setCategoryItem (cfg : Dict) (cat k : String) (v : JVal) : Except PyErr Dict :=
  match dget cfg cat with
  | some (.obj c) => .ok (dset cfg cat (.obj (dset c k v)))
  | some _ => .error .typeError
  | none => .error .keyError

/-- The inner commit loop of save_config over one category table.  On an
exception the loop stops with the document as mutated so far. -/
def commitTable (cat : String) : List (String × Widget) → Dict → Dict × Option PyErr
  | [], cfg => (cfg, none)
  | (k, wd) :: rest, cfg =>
    match commitValue wd with
    | .error e => (cfg, some e)
    | .ok v =>
      match setCategoryItem cfg cat k v with
      | .error e => (cfg, some e)
      | .ok cfg2 => commitTable cat rest cfg2

/-- The outer commit loop of save_config over self.widgets: entries whose
name is a key of config_data are committed; calling .items() on a plain
widget raises AttributeError.  On an exception the loop stops with the
document as mutated so far. -/
def commitAll : Widgets → Dict → Dict × Option PyErr
  | [], cfg => (cfg, none)
  | (name, e) :: rest, cfg =>
    if dhas cfg name then
      match e with
      | .single => (cfg, some .attributeError)
      | .table fs =>
        match commitTable name fs cfg with
        | (cfg2, none) => commitAll rest cfg2
        | (cfg2, some er) => (cfg2, some er)
    else commitAll rest cfg

/-- save_config: commit every registered input widget into config_data,
then dump config_data to the file.  The result pairs the new config_data
with the written file content; on an exception the broad except shows the
invalid-input error box instead and nothing is written, but config_data
keeps the mutations made before the exception. -/
def save_config (w : Widgets) (cfg : Dict) : Dict × Option Dict :=
  match commitAll w cfg with
  | (cfg2, none) => (cfg2, some cfg2)
  | (cfg2, some _) => (cfg2, none)

/-! ### reset_to_defaults (lines 398 to 403) -/

/-- reset_to_defaults: when the user confirms, replace config_data with a
fresh two-level copy of FALLBACK_DEFAULTS and repopulate the UI; otherwise
leave everything unchanged. -/
def reset_to_defaults (confirmed : Bool) (cfg : Dict) (w : Widgets) :
    Except PyErr (Dict × Widgets) :=
  if confirmed then
    match populate_ui freshDefaults w with
    | .ok w2 => .ok (freshDefaults, w2)
    | .error e => .error e
  else .ok (cfg, w)

end ConfigEditor

namespace ConfigEditor

/-! ### Association-list lemmas for the Python dict operations -/

theorem dget_dset_self {α : Type} (d : List (String × α)) (k : String) (v : α) :
    dget (dset d k v) k = some v := by
  induction d with
  | nil => simp [dset, dget]
  | cons hd tl ih =>
    obtain ⟨k2, v2⟩ := hd
    by_cases h : k2 = k
    · simp [dset, dget, h]
    · simp [dset, dget, h, ih]

theorem dget_dset_ne {α : Type} (d : List (String × α)) (k k2 : String) (v : α)
    (h : k ≠ k2) : dget (dset d k v) k2 = dget d k2 := by
  induction d with
  | nil => simp [dset, dget, h]
  | cons hd tl ih =>
    obtain ⟨k3, v3⟩ := hd
    by_cases h3 : k3 = k
    · subst h3
      simp [dset, dget, h]
    · simp [dset, dget, h3, ih]

theorem dset_eq_of_dget {α : Type} (d : List (String × α)) (k : String) (v : α)
    (h : dget d k = some v) : dset d k v = d := by
  induction d with
  | nil => simp [dget] at h
  | cons hd tl ih =>
    obtain ⟨k2, v2⟩ := hd
    by_cases h2 : k2 = k
    · simp [dget, h2] at h
      simp [dset, h2, h]
    · simp [dget, h2] at h
      simp [dset, h2, ih h]

theorem dget_dsetdefault_self {α : Type} (d : List (String × α)) (k : String) (v : α) :
    dget (dsetdefault d k v) k = some ((dget d k).getD v) := by
  induction d with
  | nil => simp [dsetdefault, dget]
  | cons hd tl ih =>
    obtain ⟨k2, v2⟩ := hd
    by_cases h : k2 = k
    · simp [dsetdefault, dget, h]
    · simp [dsetdefault, dget, h, ih]

theorem dget_dsetdefault_ne {α : Type} (d : List (String × α)) (k k2 : String) (v : α)
    (h : k ≠ k2) : dget (dsetdefault d k v) k2 = dget d k2 := by
  induction d with
  | nil => simp [dsetdefault, dget, h]
  | cons hd tl ih =>
    obtain ⟨k3, v3⟩ := hd
    by_cases h3 : k3 = k
    · subst h3
      simp [dsetdefault, dget, h]
    · simp [dsetdefault, dget, h3, ih]

theorem dsetdefault_preserves {α : Type} (d : List (String × α)) (k k2 : String)
    (v v2 : α) (h : dget d k2 = some v2) :
    dget (dsetdefault d k v) k2 = some v2 := by
  by_cases hk : k = k2
  · subst hk
    simp [dget_dsetdefault_self, h]
  · rw [dget_dsetdefault_ne _ _ _ _ hk, h]

theorem dhas_iff_dget {α : Type} (d : List (String × α)) (k : String) :
    dhas d k = true ↔ (dget d k).isSome := by
  induction d with
  | nil => simp [dhas, dget]
  | cons hd tl ih =>
    obtain ⟨k2, v2⟩ := hd
    by_cases h : k2 = k
    · simp [dhas, dget, h]
    · simp [dhas, dget, h, ih]

theorem dhas_false_dget {α : Type} (d : List (String × α)) (k : String)
    (h : dhas d k = false) : dget d k = none := by
  have h2 := dhas_iff_dget d k
  rw [h] at h2
  cases hg : dget d k with
  | none => rfl
  | some v =>
    rw [hg] at h2
    simp at h2

theorem dget_isSome_of_dhas {α : Type} (d : List (String × α)) (k : String)
    (h : dhas d k = true) : (dget d k).isSome := (dhas_iff_dget d k).mp h

theorem dhas_dset {α : Type} (d : List (String × α)) (k k2 : String) (v : α) :
    dhas (dset d k v) k2 = (dhas d k2 || decide (k = k2)) := by
  induction d with
  | nil => simp [dset, dhas]
  | cons hd tl ih =>
    obtain ⟨k3, v3⟩ := hd
    by_cases h3 : k3 = k
    · subst h3
      by_cases h2 : k3 = k2
      · simp [dset, dhas, h2]
      · simp [dset, dhas, h2]
    · by_cases h2 : k3 = k2
      · subst h2
        simp [dset, dhas, h3]
      · simp [dset, dhas, h3, h2, ih]

theorem dget_mapSnd {α β : Type} (f : α → β) (d : List (String × α)) (k : String) :
    dget (d.map (fun kv => (kv.1, f kv.2))) k = (dget d k).map f := by
  induction d with
  | nil => simp [dget]
  | cons hd tl ih =>
    obtain ⟨k2, v2⟩ := hd
    by_cases h : k2 = k
    · simp [dget, h]
    · simp [dget, h, ih]

end ConfigEditor

namespace ConfigEditor

theorem dhas_eq_isSome {α : Type} (d : List (String × α)) (k : String) :
    dhas d k = (dget d k).isSome := by
  induction d with
  | nil => simp [dhas, dget]
  | cons hd tl ih =>
    obtain ⟨k2, v2⟩ := hd
    by_cases h : k2 = k
    · simp [dhas, dget, h]
    · simp [dhas, dget, h, ih]

theorem dset_dset {α : Type} (d : List (String × α)) (k : String) (v v2 : α) :
    dset (dset d k v) k v2 = dset d k v2 := by
  induction d with
  | nil => simp [dset]
  | cons hd tl ih =>
    obtain ⟨k3, v3⟩ := hd
    by_cases h : k3 = k
    · simp [dset, h]
    · simp [dset, h, ih]

theorem dget_eq_none_of_not_mem_keys {α : Type} (d : List (String × α)) (k : String)
    (h : k ∉ d.map Prod.fst) : dget d k = none := by
  induction d with
  | nil => rfl
  | cons hd tl ih =>
    obtain ⟨k2, v2⟩ := hd
    rw [List.map_cons] at h
    rw [List.mem_cons, not_or] at h
    have h1 : k2 ≠ k := fun hh => h.1 hh.symm
    rw [show dget ((k2, v2) :: tl) k = dget tl k by simp [dget, h1]]
    exact ih h.2

/-! ### The setdefault loop of the defaulting pass -/

theorem setdefaultAll_nil (fields : Dict) :
    fields.foldl (fun c2 kv => dsetdefault c2 kv.1 kv.2) [] =
      fields.foldl (fun c2 kv => dsetdefault c2 kv.1 kv.2) [] := rfl

/-- The inner setdefault loop of the defaulting pass, named for the
lemmas. -/
def setdefaultAll (c : Dict) (fields : Dict) : Dict :=
  fields.foldl (fun c2 kv => dsetdefault c2 kv.1 kv.2) c

theorem setdefaultAll_cons (c : Dict) (k : String) (v : JVal) (rest : Dict) :
    setdefaultAll c ((k, v) :: rest) = setdefaultAll (dsetdefault c k v) rest := rfl

theorem setdefaultAll_preserves (fields : Dict) (c : Dict) (k : String) (v : JVal)
    (h : dget c k = some v) : dget (setdefaultAll c fields) k = some v := by
  induction fields generalizing c with
  | nil => exact h
  | cons hd tl ih =>
    obtain ⟨k2, v2⟩ := hd
    rw [setdefaultAll_cons]
    exact ih _ (dsetdefault_preserves _ _ _ _ _ h)

theorem setdefaultAll_dget_mem (fields : Dict) (c : Dict) (k : String) (dv : JVal)
    (h : dget fields k = some dv) :
    dget (setdefaultAll c fields) k = some ((dget c k).getD dv) := by
  induction fields generalizing c with
  | nil => simp [dget] at h
  | cons hd tl ih =>
    obtain ⟨k2, v2⟩ := hd
    rw [setdefaultAll_cons]
    by_cases hk : k2 = k
    · subst hk
      simp [dget] at h
      subst h
      exact setdefaultAll_preserves _ _ _ _ (dget_dsetdefault_self c k2 v2)
    · simp [dget, hk] at h
      rw [ih _ h, dget_dsetdefault_ne _ _ _ _ hk]

theorem setdefaultAll_dget_nomem (fields : Dict) (c : Dict) (k : String)
    (h : dget fields k = none) : dget (setdefaultAll c fields) k = dget c k := by
  induction fields generalizing c with
  | nil => rfl
  | cons hd tl ih =>
    obtain ⟨k2, v2⟩ := hd
    rw [setdefaultAll_cons]
    by_cases hk : k2 = k
    · simp [dget, hk] at h
    · simp [dget, hk] at h
      rw [ih _ h, dget_dsetdefault_ne _ _ _ _ hk]

/-! ### The defaulting pass -/

/-- Whether the value at a category key (if any) is a dict, so that the
setdefault loop does not raise. -/
def catShapeOk (cfg : Dict) (cat : String) : Bool :=
  match dget cfg cat with
  | none => true
  | some (.obj _) => true
  | some _ => false

/-- The contents of a category sub-dict (empty when absent, garbage when
not a dict; only used under catShapeOk). -/
def catContents (cfg : Dict) (cat : String) : Dict :=
  match dget cfg cat with
  | some (.obj c) => c
  | _ => []

/-- The value of a field of a category, when the category is a dict. -/
def valueAt (cfg : Dict) (cat k : String) : Option JVal :=
  match dget cfg cat with
  | some (.obj c) => dget c k
  | _ => none

theorem ensureCategory_eq_ok (cfg : Dict) (cat : String) (fields : Dict)
    (h : catShapeOk cfg cat = true) :
    ensureCategory cfg cat fields =
      .ok (dset cfg cat (.obj (setdefaultAll (catContents cfg cat) fields))) := by
  unfold ensureCategory catShapeOk catContents at *
  cases hg : dget cfg cat with
  | none =>
    have hh : dhas cfg cat = false := by rw [dhas_eq_isSome, hg]; rfl
    rw [hg] at h
    simp only [hh, Bool.false_eq_true, if_false, dget_dset_self, dset_dset]
    rfl
  | some v =>
    have hh : dhas cfg cat = true := by rw [dhas_eq_isSome, hg]; rfl
    rw [hg] at h
    cases v with
    | obj c => simp only [hh, if_true, hg]; rfl
    | int n => simp at h
    | bool b => simp at h
    | str s => simp at h
    | null => simp at h
    | arr l => simp at h

theorem ensureCategory_ok_inv (cfg cfg2 : Dict) (cat : String) (fields : Dict)
    (h : ensureCategory cfg cat fields = .ok cfg2) :
    catShapeOk cfg cat = true ∧
      cfg2 = dset cfg cat (.obj (setdefaultAll (catContents cfg cat) fields)) := by
  have hs : catShapeOk cfg cat = true := by
    unfold ensureCategory at h
    unfold catShapeOk
    cases hg : dget cfg cat with
    | none => rfl
    | some v =>
      have hh : dhas cfg cat = true := by rw [dhas_eq_isSome, hg]; rfl
      rw [hh] at h
      simp only [if_true] at h
      rw [hg] at h
      cases v <;> simp_all
  refine ⟨hs, ?_⟩
  rw [ensureCategory_eq_ok cfg cat fields hs] at h
  exact (Except.ok.inj h).symm

theorem ensureCategory_frame (cfg cfg2 : Dict) (cat : String) (fields : Dict)
    (h : ensureCategory cfg cat fields = .ok cfg2) (k : String) (hk : cat ≠ k) :
    dget cfg2 k = dget cfg k := by
  obtain ⟨-, h2⟩ := ensureCategory_ok_inv cfg cfg2 cat fields h
  rw [h2, dget_dset_ne _ _ _ _ hk]

theorem ensureCategory_dget_self (cfg cfg2 : Dict) (cat : String) (fields : Dict)
    (h : ensureCategory cfg cat fields = .ok cfg2) :
    dget cfg2 cat = some (.obj (setdefaultAll (catContents cfg cat) fields)) := by
  obtain ⟨-, h2⟩ := ensureCategory_ok_inv cfg cfg2 cat fields h
  rw [h2, dget_dset_self]

theorem ensureCategory_preserve_valueAt (cfg cfg2 : Dict) (cat : String) (fields : Dict)
    (h : ensureCategory cfg cat fields = .ok cfg2) (cat2 k : String) (v : JVal)
    (hv : valueAt cfg cat2 k = some v) : valueAt cfg2 cat2 k = some v := by
  by_cases hc : cat = cat2
  · subst hc
    unfold valueAt at hv
    cases hg : dget cfg cat with
    | none => rw [hg] at hv; simp at hv
    | some v2 =>
      rw [hg] at hv
      cases v2 with
      | obj c =>
        have hcc : catContents cfg cat = c := by unfold catContents; rw [hg]
        unfold valueAt
        rw [ensureCategory_dget_self cfg cfg2 cat fields h, hcc]
        exact setdefaultAll_preserves _ _ _ _ hv
      | int n => simp at hv
      | bool b => simp at hv
      | str s => simp at hv
      | null => simp at hv
      | arr l => simp at hv
  · unfold valueAt at *
    rw [ensureCategory_frame cfg cfg2 cat fields h cat2 hc]
    exact hv

theorem ensureCategory_dhas (cfg cfg2 : Dict) (cat : String) (fields : Dict)
    (h : ensureCategory cfg cat fields = .ok cfg2) (x : String) :
    dhas cfg2 x = (dhas cfg x || decide (cat = x)) := by
  obtain ⟨-, h2⟩ := ensureCategory_ok_inv cfg cfg2 cat fields h
  rw [h2, dhas_dset]

theorem applyDefaultsFrom_frame (L : List (String × Dict)) (cfg cfg2 : Dict)
    (h : applyDefaultsFrom L cfg = .ok cfg2) (k : String) (hk : dget L k = none) :
    dget cfg2 k = dget cfg k := by
  induction L generalizing cfg with
  | nil =>
    unfold applyDefaultsFrom at h
    rw [Except.ok.inj h]
  | cons hd tl ih =>
    obtain ⟨cat, fields⟩ := hd
    unfold applyDefaultsFrom at h
    cases he : ensureCategory cfg cat fields with
    | error e => rw [he] at h; exact absurd h (by simp)
    | ok cfg1 =>
      rw [he] at h
      by_cases hc : cat = k
      · subst hc
        simp [dget] at hk
      · simp [dget, hc] at hk
        rw [ih cfg1 h hk, ensureCategory_frame cfg cfg1 cat fields he k hc]

theorem applyDefaultsFrom_preserve_valueAt (L : List (String × Dict)) (cfg cfg2 : Dict)
    (h : applyDefaultsFrom L cfg = .ok cfg2) (cat k : String) (v : JVal)
    (hv : valueAt cfg cat k = some v) : valueAt cfg2 cat k = some v := by
  induction L generalizing cfg with
  | nil =>
    unfold applyDefaultsFrom at h
    rw [Except.ok.inj h] at hv
    exact hv
  | cons hd tl ih =>
    obtain ⟨cat0, fields⟩ := hd
    unfold applyDefaultsFrom at h
    cases he : ensureCategory cfg cat0 fields with
    | error e => rw [he] at h; exact absurd h (by simp)
    | ok cfg1 =>
      rw [he] at h
      exact ih cfg1 h (ensureCategory_preserve_valueAt cfg cfg1 cat0 fields he cat k v hv)

theorem applyDefaultsFrom_result (L : List (String × Dict)) (cfg cfg2 : Dict)
    (hnd : (L.map Prod.fst).Nodup) (h : applyDefaultsFrom L cfg = .ok cfg2)
    (cat : String) (fields : Dict) (hf : dget L cat = some fields) :
    dget cfg2 cat = some (.obj (setdefaultAll (catContents cfg cat) fields)) := by
  induction L generalizing cfg with
  | nil => simp [dget] at hf
  | cons hd tl ih =>
    obtain ⟨cat0, f0⟩ := hd
    unfold applyDefaultsFrom at h
    cases he : ensureCategory cfg cat0 f0 with
    | error e => rw [he] at h; exact absurd h (by simp)
    | ok cfg1 =>
      rw [he] at h
      rw [List.map_cons, List.nodup_cons] at hnd
      by_cases hc : cat0 = cat
      · subst hc
        rw [show dget ((cat0, f0) :: tl) cat0 = some f0 by simp [dget]] at hf
        have hff : f0 = fields := Option.some.inj hf
        subst hff
        have hnone : dget tl cat0 = none :=
          dget_eq_none_of_not_mem_keys tl cat0 hnd.1
        rw [applyDefaultsFrom_frame tl cfg1 cfg2 h cat0 hnone]
        exact ensureCategory_dget_self cfg cfg1 cat0 f0 he
      · rw [show dget ((cat0, f0) :: tl) cat = dget tl cat by simp [dget, hc]] at hf
        have hcc : catContents cfg1 cat = catContents cfg cat := by
          unfold catContents
          rw [ensureCategory_frame cfg cfg1 cat0 f0 he cat hc]
        rw [← hcc]
        exact ih cfg1 hnd.2 h hf

theorem applyDefaultsFrom_ok_of_shape (L : List (String × Dict)) (cfg : Dict)
    (hs : ∀ p ∈ L, catShapeOk cfg p.1 = true) :
    ∃ cfg2, applyDefaultsFrom L cfg = .ok cfg2 := by
  induction L generalizing cfg with
  | nil => exact ⟨cfg, rfl⟩
  | cons hd tl ih =>
    obtain ⟨cat0, f0⟩ := hd
    have h0 : catShapeOk cfg cat0 = true := hs (cat0, f0) (by simp)
    have he := ensureCategory_eq_ok cfg cat0 f0 h0
    have hs2 : ∀ p ∈ tl,
        catShapeOk (dset cfg cat0 (.obj (setdefaultAll (catContents cfg cat0) f0))) p.1 = true := by
      intro p hp
      by_cases hc : cat0 = p.1
      · unfold catShapeOk
        rw [← hc, dget_dset_self]
      · unfold catShapeOk
        rw [dget_dset_ne _ _ _ _ hc]
        exact hs p (by simp [hp])
    obtain ⟨cfg2, h2⟩ := ih _ hs2
    refine ⟨cfg2, ?_⟩
    unfold applyDefaultsFrom
    rw [he]
    exact h2

theorem applyDefaultsFrom_dhas (L : List (String × Dict)) (cfg cfg2 : Dict)
    (h : applyDefaultsFrom L cfg = .ok cfg2) (x : String) :
    dhas cfg2 x = (dhas cfg x || dhas L x) := by
  induction L generalizing cfg with
  | nil =>
    unfold applyDefaultsFrom at h
    rw [Except.ok.inj h]
    simp [dhas]
  | cons hd tl ih =>
    obtain ⟨cat0, f0⟩ := hd
    unfold applyDefaultsFrom at h
    cases he : ensureCategory cfg cat0 f0 with
    | error e => rw [he] at h; exact absurd h (by simp)
    | ok cfg1 =>
      rw [he] at h
      rw [ih cfg1 h, ensureCategory_dhas cfg cfg1 cat0 f0 he x]
      show _ = (dhas cfg x || (decide (cat0 = x) || dhas tl x))
      cases dhas cfg x <;> cases hd : decide (cat0 = x) <;> simp

end ConfigEditor

namespace ConfigEditor

/-! ### Extraction lemmas for the composed operations -/

theorem load_config_ok_inv (fs : FileState) (w : Widgets) (cfg : Dict) (w2 : Widgets)
    (h : load_config fs w = .ok (cfg, w2)) :
    applyDefaults (initialDoc fs) = .ok cfg ∧ populate_ui cfg w = .ok w2 := by
  unfold load_config at h
  split at h
  · exact absurd h (by simp)
  · rename_i cfg0 ha
    split at h
    · exact absurd h (by simp)
    · rename_i w1 hp
      have h2 := Except.ok.inj h
      have hcfg : cfg0 = cfg := congrArg Prod.fst h2
      have hw : w1 = w2 := congrArg Prod.snd h2
      subst hcfg
      subst hw
      exact ⟨ha, hp⟩

theorem populate_ui_ok_inv (cfg : Dict) (w w2 : Widgets)
    (h : populate_ui cfg w = .ok w2) :
    ∃ w1, populateEntries cfg w = .ok w1 ∧ w2 = apply_feature_dependencies w1 := by
  unfold populate_ui at h
  cases hp : populateEntries cfg w with
  | error e => rw [hp] at h; exact absurd h (by simp)
  | ok w1 =>
    rw [hp] at h
    exact ⟨w1, rfl, (Except.ok.inj h).symm⟩

theorem save_config_ok_inv (w : Widgets) (cfg cfg2 out : Dict)
    (h : save_config w cfg = (cfg2, some out)) :
    commitAll w cfg = (cfg2, none) ∧ out = cfg2 := by
  unfold save_config at h
  cases hc : commitAll w cfg with
  | mk cfga e =>
    rw [hc] at h
    cases e with
    | none =>
      simp at h
      obtain ⟨h1, h2⟩ := h
      subst h1
      exact ⟨by rw [h2], by rw [h2]⟩
    | some er => simp at h

theorem save_config_of_commit_ok (w : Widgets) (cfg cfg2 : Dict)
    (h : commitAll w cfg = (cfg2, none)) : save_config w cfg = (cfg2, some cfg2) := by
  unfold save_config
  rw [h]

theorem save_config_of_commit_err (w : Widgets) (cfg cfg2 : Dict) (e : PyErr)
    (h : commitAll w cfg = (cfg2, some e)) : save_config w cfg = (cfg2, none) := by
  unfold save_config
  rw [h]

/-! ### populate_ui lemmas -/

/-- The condition under which the populate_ui loop raises no exception:
every registry entry whose name is a key of config_data is a category table
whose config value is a dict. -/
def populateOk (cfg : Dict) (w : Widgets) : Bool :=
  w.all (fun ne =>
    match ne.2, dget cfg ne.1 with
    | _, none => true
    | .table _, some (.obj _) => true
    | _, _ => false)

/-- The widgets produced by a successful populate_ui loop: each table entry
whose category is present is filled from its sub-dict. -/
def populateResult (cfg : Dict) (w : Widgets) : Widgets :=
  w.map (fun ne =>
    match ne.2, dget cfg ne.1 with
    | .table fs, some (.obj c) => (ne.1, .table (populateTable c fs))
    | _, _ => ne)

theorem populateEntries_eq_ok (cfg : Dict) (w : Widgets)
    (h : populateOk cfg w = true) :
    populateEntries cfg w = .ok (populateResult cfg w) := by
  induction w with
  | nil => rfl
  | cons ne rest ih =>
    obtain ⟨name, e⟩ := ne
    rw [populateOk, List.all_cons, Bool.and_eq_true] at h
    have hrest := ih h.2
    have hh := h.1
    simp only at hh
    unfold populateEntries
    rw [dhas_eq_isSome]
    cases hg : dget cfg name with
    | none =>
      rw [hg] at hh
      cases e <;> simp [populateResult, hrest, hg]
    | some v =>
      rw [hg] at hh
      cases e with
      | single => cases v <;> simp at hh
      | table fs =>
        cases v with
        | obj c => simp [populateResult, hrest, hg]
        | int n => simp at hh
        | bool b => simp at hh
        | str s => simp at hh
        | null => simp at hh
        | arr l => simp at hh

theorem populateEntries_ok_inv (cfg : Dict) (w w2 : Widgets)
    (h : populateEntries cfg w = .ok w2) : populateOk cfg w = true := by
  induction w generalizing w2 with
  | nil => rfl
  | cons ne rest ih =>
    obtain ⟨name, e⟩ := ne
    unfold populateEntries at h
    rw [populateOk, List.all_cons, Bool.and_eq_true]
    by_cases hd : dhas cfg name = true
    · rw [if_pos hd] at h
      have hg : (dget cfg name).isSome := by rw [← dhas_eq_isSome, hd]
      cases e with
      | single => exact absurd h (by simp)
      | table fs =>
        cases hgv : dget cfg name with
        | none => rw [hgv] at hg; simp at hg
        | some v =>
          rw [hgv] at h
          cases v with
          | obj c =>
            constructor
            · simp [hgv]
            · cases hp : populateEntries cfg rest with
              | error e2 => rw [hp] at h; exact absurd h (by simp)
              | ok rest2 => exact ih rest2 hp
          | int n => exact absurd h (by simp)
          | bool b => exact absurd h (by simp)
          | str s => exact absurd h (by simp)
          | null => exact absurd h (by simp)
          | arr l => exact absurd h (by simp)
    · rw [if_neg hd] at h
      have hg : dget cfg name = none := by
        have := dhas_eq_isSome cfg name
        cases hgv : dget cfg name with
        | none => rfl
        | some v => rw [hgv] at this; simp at this; exact absurd this hd
      constructor
      · cases e <;> simp [hg]
      · cases hp : populateEntries cfg rest with
        | error e2 => rw [hp] at h; exact absurd h (by simp)
        | ok rest2 => exact ih rest2 hp

theorem populateEntries_ok_result (cfg : Dict) (w w2 : Widgets)
    (h : populateEntries cfg w = .ok w2) : w2 = populateResult cfg w := by
  have h2 := populateEntries_eq_ok cfg w (populateEntries_ok_inv cfg w w2 h)
  rw [h] at h2
  exact Except.ok.inj h2

end ConfigEditor

namespace ConfigEditor

/-! ### Widget values and shapes under the UI operations -/

/-- The raw state of an input widget that save_config reads: the text of a
line edit or the checked state of a checkbox.  The enabled flag is
erased. -/
def widgetValue : Widget → String ⊕ Bool
  | .line t _ => .inl t
  | .check b _ => .inr b

/-- The value view of a registry entry. -/
def entryValues : WEntry → Option (List (String × (String ⊕ Bool)))
  | .single => none
  | .table fs => some (fs.map (fun f => (f.1, widgetValue f.2)))

/-- The value view of the whole registry: everything save_config depends
on. -/
def wValues (w : Widgets) : List (String × Option (List (String × (String ⊕ Bool)))) :=
  w.map (fun ne => (ne.1, entryValues ne.2))

theorem widgetValue_setEnabled (b : Bool) (wd : Widget) :
    widgetValue (setWidgetEnabled b wd) = widgetValue wd := by
  cases wd <;> rfl

theorem isLineWidget_setEnabled (b : Bool) (wd : Widget) :
    isLineWidget (setWidgetEnabled b wd) = isLineWidget wd := by
  cases wd <;> rfl

theorem isLineWidget_setWidgetFrom (wd : Widget) (v : JVal) :
    isLineWidget (setWidgetFrom wd v) = isLineWidget wd := by
  cases wd <;> rfl

theorem wValues_map (F : String × WEntry → String × WEntry) (w : Widgets)
    (h : ∀ ne, (F ne).1 = ne.1 ∧ entryValues (F ne).2 = entryValues ne.2) :
    wValues (w.map F) = wValues w := by
  unfold wValues
  rw [List.map_map]
  apply List.map_congr_left
  intro ne _
  show ((F ne).1, entryValues (F ne).2) = (ne.1, entryValues ne.2)
  rw [(h ne).1, (h ne).2]

theorem wShape_map (F : String × WEntry → String × WEntry) (w : Widgets)
    (h : ∀ ne, (F ne).1 = ne.1 ∧ entryShape (F ne).2 = entryShape ne.2) :
    wShape (w.map F) = wShape w := by
  unfold wShape
  rw [List.map_map]
  apply List.map_congr_left
  intro ne _
  show ((F ne).1, entryShape (F ne).2) = (ne.1, entryShape ne.2)
  rw [(h ne).1, (h ne).2]

theorem values_map_setEnabled_if (p : String → Bool) (b : Bool)
    (fs : List (String × Widget)) :
    (fs.map (fun f => if p f.1 then (f.1, setWidgetEnabled b f.2) else f)).map
        (fun f => (f.1, widgetValue f.2)) =
      fs.map (fun f => (f.1, widgetValue f.2)) := by
  induction fs with
  | nil => rfl
  | cons hd tl ih =>
    obtain ⟨k, wd⟩ := hd
    by_cases hp : p k
    · simp only [List.map_cons, hp, if_true, ih, widgetValue_setEnabled]
    · simp only [List.map_cons, hp, Bool.false_eq_true, if_false, ih]

theorem values_map_setEnabled (b : Bool) (fs : List (String × Widget)) :
    (fs.map (fun f => (f.1, setWidgetEnabled b f.2))).map
        (fun f => (f.1, widgetValue f.2)) =
      fs.map (fun f => (f.1, widgetValue f.2)) := by
  induction fs with
  | nil => rfl
  | cons hd tl ih =>
    obtain ⟨k, wd⟩ := hd
    simp only [List.map_cons, ih, widgetValue_setEnabled]

theorem shapes_map_setEnabled_if (p : String → Bool) (b : Bool)
    (fs : List (String × Widget)) :
    (fs.map (fun f => if p f.1 then (f.1, setWidgetEnabled b f.2) else f)).map
        (fun f => (f.1, isLineWidget f.2)) =
      fs.map (fun f => (f.1, isLineWidget f.2)) := by
  induction fs with
  | nil => rfl
  | cons hd tl ih =>
    obtain ⟨k, wd⟩ := hd
    by_cases hp : p k
    · simp only [List.map_cons, hp, if_true, ih, isLineWidget_setEnabled]
    · simp only [List.map_cons, hp, Bool.false_eq_true, if_false, ih]

theorem shapes_map_setEnabled (b : Bool) (fs : List (String × Widget)) :
    (fs.map (fun f => (f.1, setWidgetEnabled b f.2))).map
        (fun f => (f.1, isLineWidget f.2)) =
      fs.map (fun f => (f.1, isLineWidget f.2)) := by
  induction fs with
  | nil => rfl
  | cons hd tl ih =>
    obtain ⟨k, wd⟩ := hd
    simp only [List.map_cons, ih, isLineWidget_setEnabled]

/-- Disabling or enabling the roleplay-dependent widgets never changes any
widget value: apply_feature_dependencies only toggles enabled flags. -/
theorem apply_feature_dependencies_wValues (w : Widgets) :
    wValues (apply_feature_dependencies w) = wValues w := by
  cases hg : dget w "features" with
  | none => simp only [apply_feature_dependencies, hg]
  | some e =>
    cases e with
    | single => simp only [apply_feature_dependencies, hg]
    | table fs =>
      cases hr : dget fs "roleplay_enabled" with
      | none => simp only [apply_feature_dependencies, hg, hr]
      | some wd =>
        simp only [apply_feature_dependencies, hg, hr]
        apply wValues_map
        intro ne
        obtain ⟨name, e2⟩ := ne
        cases e2 with
        | single => exact ⟨rfl, rfl⟩
        | table fs2 =>
          by_cases h1 : name = "features"
          · constructor
            · simp [h1]
            · simp only [h1, if_true, entryValues, values_map_setEnabled_if]
          · by_cases h2 : (name = "civilian" || name = "police") = true
            · constructor
              · simp [h1, h2]
              · simp only [h1, Bool.false_eq_true, if_false, h2, if_true,
                  entryValues, values_map_setEnabled]
            · constructor
              · simp [h1, h2]
              · simp [h1, h2]

theorem wShape_apply_feature_dependencies (w : Widgets) :
    wShape (apply_feature_dependencies w) = wShape w := by
  cases hg : dget w "features" with
  | none => simp only [apply_feature_dependencies, hg]
  | some e =>
    cases e with
    | single => simp only [apply_feature_dependencies, hg]
    | table fs =>
      cases hr : dget fs "roleplay_enabled" with
      | none => simp only [apply_feature_dependencies, hg, hr]
      | some wd =>
        simp only [apply_feature_dependencies, hg, hr]
        apply wShape_map
        intro ne
        obtain ⟨name, e2⟩ := ne
        cases e2 with
        | single => exact ⟨rfl, rfl⟩
        | table fs2 =>
          by_cases h1 : name = "features"
          · constructor
            · simp [h1]
            · simp only [h1, if_true, entryShape, shapes_map_setEnabled_if]
          · by_cases h2 : (name = "civilian" || name = "police") = true
            · constructor
              · simp [h1, h2]
              · simp only [h1, Bool.false_eq_true, if_false, h2, if_true,
                  entryShape, shapes_map_setEnabled]
            · constructor
              · simp [h1, h2]
              · simp [h1, h2]

theorem wShape_populateTable (c : Dict) (fs : List (String × Widget)) :
    (populateTable c fs).map (fun f => (f.1, isLineWidget f.2)) =
      fs.map (fun f => (f.1, isLineWidget f.2)) := by
  unfold populateTable
  rw [List.map_map]
  apply List.map_congr_left
  intro f hf
  obtain ⟨k, wd⟩ := f
  show ((match dget c k with
        | some .null => (k, wd)
        | some v => (k, setWidgetFrom wd v)
        | none => (k, wd)).1,
      isLineWidget (match dget c k with
        | some .null => (k, wd)
        | some v => (k, setWidgetFrom wd v)
        | none => (k, wd)).2) = (k, isLineWidget wd)
  cases hg : dget c k with
  | none => rfl
  | some v => cases v <;> simp [isLineWidget_setWidgetFrom]

theorem wShape_populateResult (cfg : Dict) (w : Widgets) :
    wShape (populateResult cfg w) = wShape w := by
  unfold populateResult
  apply wShape_map
  intro ne
  obtain ⟨name, e⟩ := ne
  cases e with
  | single => cases hg : dget cfg name <;> simp [hg]
  | table fs =>
    cases hg : dget cfg name with
    | none => simp [hg]
    | some v =>
      cases v <;> simp [hg, entryShape, wShape_populateTable]

end ConfigEditor

namespace ConfigEditor

/-! ### save_config commit-loop lemmas -/

theorem dhas_dset_existing {α : Type} (d : List (String × α)) (k x : String) (v : α)
    (h : dhas d k = true) : dhas (dset d k v) x = dhas d x := by
  rw [dhas_dset]
  by_cases hx : k = x
  · subst hx
    rw [h]
    simp
  · simp [hx]

theorem commitValue_of_widgetValue (w1 w2 : Widget)
    (h : widgetValue w1 = widgetValue w2) : commitValue w1 = commitValue w2 := by
  cases w1 <;> cases w2 <;> simp [widgetValue] at h <;> simp [commitValue, h]

theorem setCategoryItem_eq_ok (cfg : Dict) (cat k : String) (v : JVal) (c : Dict)
    (hg : dget cfg cat = some (.obj c)) :
    setCategoryItem cfg cat k v = .ok (dset cfg cat (.obj (dset c k v))) := by
  unfold setCategoryItem
  rw [hg]

theorem setCategoryItem_ok_inv (cfg cfg1 : Dict) (cat k : String) (v : JVal)
    (h : setCategoryItem cfg cat k v = .ok cfg1) :
    ∃ c, dget cfg cat = some (.obj c) ∧ cfg1 = dset cfg cat (.obj (dset c k v)) := by
  unfold setCategoryItem at h
  cases hg : dget cfg cat with
  | none => rw [hg] at h; exact absurd h (by simp)
  | some v2 =>
    rw [hg] at h
    cases v2 with
    | obj c => exact ⟨c, rfl, (Except.ok.inj h).symm⟩
    | int n => exact absurd h (by simp)
    | bool b => exact absurd h (by simp)
    | str s => exact absurd h (by simp)
    | null => exact absurd h (by simp)
    | arr l => exact absurd h (by simp)

theorem commitTable_cons_err (cat k0 : String) (wd0 : Widget)
    (tl : List (String × Widget)) (cfg : Dict) (e : PyErr)
    (hcv : commitValue wd0 = .error e) :
    commitTable cat ((k0, wd0) :: tl) cfg = (cfg, some e) := by
  unfold commitTable
  simp only [hcv]

theorem commitTable_cons_err2 (cat k0 : String) (wd0 : Widget)
    (tl : List (String × Widget)) (cfg : Dict) (v : JVal) (e : PyErr)
    (hcv : commitValue wd0 = .ok v) (hsci : setCategoryItem cfg cat k0 v = .error e) :
    commitTable cat ((k0, wd0) :: tl) cfg = (cfg, some e) := by
  unfold commitTable
  simp only [hcv, hsci]

theorem commitTable_cons_ok (cat k0 : String) (wd0 : Widget)
    (tl : List (String × Widget)) (cfg : Dict) (v : JVal) (cfg1 : Dict)
    (hcv : commitValue wd0 = .ok v) (hsci : setCategoryItem cfg cat k0 v = .ok cfg1) :
    commitTable cat ((k0, wd0) :: tl) cfg = commitTable cat tl cfg1 := by
  conv_lhs => unfold commitTable
  simp only [hcv, hsci]

theorem commitAll_cons_skip (name : String) (e : WEntry) (tl : Widgets) (cfg : Dict)
    (hd : dhas cfg name = false) :
    commitAll ((name, e) :: tl) cfg = commitAll tl cfg := by
  conv_lhs => unfold commitAll
  simp only [hd, Bool.false_eq_true, if_false]

theorem commitAll_cons_single (name : String) (tl : Widgets) (cfg : Dict)
    (hd : dhas cfg name = true) :
    commitAll ((name, .single) :: tl) cfg = (cfg, some .attributeError) := by
  unfold commitAll
  simp only [hd, if_true]

theorem commitAll_cons_table_ok (name : String) (fs : List (String × Widget))
    (tl : Widgets) (cfg cfg1 : Dict) (hd : dhas cfg name = true)
    (hct : commitTable name fs cfg = (cfg1, none)) :
    commitAll ((name, .table fs) :: tl) cfg = commitAll tl cfg1 := by
  conv_lhs => unfold commitAll
  simp only [hd, if_true, hct]

theorem commitAll_cons_table_err (name : String) (fs : List (String × Widget))
    (tl : Widgets) (cfg cfg1 : Dict) (er : PyErr) (hd : dhas cfg name = true)
    (hct : commitTable name fs cfg = (cfg1, some er)) :
    commitAll ((name, .table fs) :: tl) cfg = (cfg1, some er) := by
  unfold commitAll
  simp only [hd, if_true, hct]

theorem commitTable_congr (cat : String) (fs1 fs2 : List (String × Widget)) (cfg : Dict)
    (h : fs1.map (fun f => (f.1, widgetValue f.2)) = fs2.map (fun f => (f.1, widgetValue f.2))) :
    commitTable cat fs1 cfg = commitTable cat fs2 cfg := by
  induction fs1 generalizing fs2 cfg with
  | nil =>
    cases fs2 with
    | nil => rfl
    | cons hd tl => simp at h
  | cons hd1 tl1 ih =>
    cases fs2 with
    | nil => simp at h
    | cons hd2 tl2 =>
      obtain ⟨k1, wd1⟩ := hd1
      obtain ⟨k2, wd2⟩ := hd2
      rw [List.map_cons, List.map_cons] at h
      have hh := List.cons.inj h
      have hk : k1 = k2 := congrArg Prod.fst hh.1
      have hv : widgetValue wd1 = widgetValue wd2 := congrArg Prod.snd hh.1
      subst hk
      have hc1 : commitValue wd1 = commitValue wd2 := commitValue_of_widgetValue wd1 wd2 hv
      cases hcv : commitValue wd2 with
      | error e =>
        rw [commitTable_cons_err cat k1 wd1 tl1 cfg e (hc1.trans hcv),
          commitTable_cons_err cat k1 wd2 tl2 cfg e hcv]
      | ok v =>
        cases hsci : setCategoryItem cfg cat k1 v with
        | error e =>
          rw [commitTable_cons_err2 cat k1 wd1 tl1 cfg v e (hc1.trans hcv) hsci,
            commitTable_cons_err2 cat k1 wd2 tl2 cfg v e hcv hsci]
        | ok cfg1 =>
          rw [commitTable_cons_ok cat k1 wd1 tl1 cfg v cfg1 (hc1.trans hcv) hsci,
            commitTable_cons_ok cat k1 wd2 tl2 cfg v cfg1 hcv hsci]
          exact ih tl2 cfg1 hh.2

theorem commitAll_congr (w1 w2 : Widgets) (cfg : Dict)
    (h : wValues w1 = wValues w2) : commitAll w1 cfg = commitAll w2 cfg := by
  induction w1 generalizing w2 cfg with
  | nil =>
    cases w2 with
    | nil => rfl
    | cons hd tl => simp [wValues] at h
  | cons hd1 tl1 ih =>
    cases w2 with
    | nil => simp [wValues] at h
    | cons hd2 tl2 =>
      obtain ⟨n1, e1⟩ := hd1
      obtain ⟨n2, e2⟩ := hd2
      unfold wValues at h
      rw [List.map_cons, List.map_cons] at h
      have hh := List.cons.inj h
      have hn : n1 = n2 := congrArg Prod.fst hh.1
      have he : entryValues e1 = entryValues e2 := congrArg Prod.snd hh.1
      subst hn
      have htl : wValues tl1 = wValues tl2 := hh.2
      by_cases hd : dhas cfg n1 = true
      · cases e1 with
        | single =>
          cases e2 with
          | single =>
            rw [commitAll_cons_single n1 tl1 cfg hd, commitAll_cons_single n1 tl2 cfg hd]
          | table fs2 => simp [entryValues] at he
        | table fs1 =>
          cases e2 with
          | single => simp [entryValues] at he
          | table fs2 =>
            simp only [entryValues, Option.some.injEq] at he
            have hct := commitTable_congr n1 fs1 fs2 cfg he
            cases hres : commitTable n1 fs2 cfg with
            | mk cfg1 er =>
              cases er with
              | none =>
                rw [commitAll_cons_table_ok n1 fs1 tl1 cfg cfg1 hd (hct.trans hres),
                  commitAll_cons_table_ok n1 fs2 tl2 cfg cfg1 hd hres]
                exact ih tl2 cfg1 htl
              | some e =>
                rw [commitAll_cons_table_err n1 fs1 tl1 cfg cfg1 e hd (hct.trans hres),
                  commitAll_cons_table_err n1 fs2 tl2 cfg cfg1 e hd hres]
      · have hd2 : dhas cfg n1 = false := by
          cases hdd : dhas cfg n1 with
          | false => rfl
          | true => exact absurd hdd hd
        rw [commitAll_cons_skip n1 e1 tl1 cfg hd2, commitAll_cons_skip n1 e2 tl2 cfg hd2]
        exact ih tl2 cfg htl

/-- save_config reads only widget values, never enabled flags: committing
after apply_feature_dependencies commits the same document. -/
theorem commitAll_apply_feature_dependencies (w : Widgets) (cfg : Dict) :
    commitAll (apply_feature_dependencies w) cfg = commitAll w cfg :=
  commitAll_congr _ _ cfg (apply_feature_dependencies_wValues w)

theorem commitTable_dhas (cat : String) (fs : List (String × Widget)) (cfg : Dict)
    (x : String) : dhas (commitTable cat fs cfg).1 x = dhas cfg x := by
  induction fs generalizing cfg with
  | nil => rfl
  | cons hd tl ih =>
    obtain ⟨k0, wd0⟩ := hd
    cases hcv : commitValue wd0 with
    | error e => rw [commitTable_cons_err cat k0 wd0 tl cfg e hcv]
    | ok v =>
      cases hsci : setCategoryItem cfg cat k0 v with
      | error e => rw [commitTable_cons_err2 cat k0 wd0 tl cfg v e hcv hsci]
      | ok cfg1 =>
        rw [commitTable_cons_ok cat k0 wd0 tl cfg v cfg1 hcv hsci]
        obtain ⟨c, hg, hc1⟩ := setCategoryItem_ok_inv cfg cfg1 cat k0 v hsci
        have hdc : dhas cfg cat = true := by rw [dhas_eq_isSome, hg]; rfl
        rw [ih cfg1, hc1, dhas_dset_existing cfg cat x _ hdc]

theorem commitTable_frame_cat (cat : String) (fs : List (String × Widget)) (cfg : Dict)
    (cat2 : String) (hne : cat ≠ cat2) :
    dget (commitTable cat fs cfg).1 cat2 = dget cfg cat2 := by
  induction fs generalizing cfg with
  | nil => rfl
  | cons hd tl ih =>
    obtain ⟨k0, wd0⟩ := hd
    cases hcv : commitValue wd0 with
    | error e => rw [commitTable_cons_err cat k0 wd0 tl cfg e hcv]
    | ok v =>
      cases hsci : setCategoryItem cfg cat k0 v with
      | error e => rw [commitTable_cons_err2 cat k0 wd0 tl cfg v e hcv hsci]
      | ok cfg1 =>
        rw [commitTable_cons_ok cat k0 wd0 tl cfg v cfg1 hcv hsci]
        obtain ⟨c, hg, hc1⟩ := setCategoryItem_ok_inv cfg cfg1 cat k0 v hsci
        rw [ih cfg1, hc1, dget_dset_ne _ _ _ _ hne]

theorem commitTable_valueAt_frame (cat : String) (fs : List (String × Widget))
    (cfg : Dict) (k : String) (hk : dget fs k = none) :
    valueAt (commitTable cat fs cfg).1 cat k = valueAt cfg cat k := by
  induction fs generalizing cfg with
  | nil => rfl
  | cons hd tl ih =>
    obtain ⟨k0, wd0⟩ := hd
    by_cases hk0 : k0 = k
    · simp [dget, hk0] at hk
    · rw [show dget ((k0, wd0) :: tl) k = dget tl k by simp [dget, hk0]] at hk
      cases hcv : commitValue wd0 with
      | error e => rw [commitTable_cons_err cat k0 wd0 tl cfg e hcv]
      | ok v =>
        cases hsci : setCategoryItem cfg cat k0 v with
        | error e => rw [commitTable_cons_err2 cat k0 wd0 tl cfg v e hcv hsci]
        | ok cfg1 =>
          rw [commitTable_cons_ok cat k0 wd0 tl cfg v cfg1 hcv hsci]
          obtain ⟨c, hg, hc1⟩ := setCategoryItem_ok_inv cfg cfg1 cat k0 v hsci
          rw [ih cfg1 hk]
          unfold valueAt
          simp only [hc1, dget_dset_self, hg]
          rw [dget_dset_ne _ _ _ _ hk0]

theorem commitTable_obj_at (cat : String) (fs : List (String × Widget)) (cfg : Dict)
    (name : String) (c0 : Dict) (h : dget cfg name = some (.obj c0)) :
    ∃ c2, dget (commitTable cat fs cfg).1 name = some (.obj c2) := by
  induction fs generalizing cfg c0 with
  | nil => exact ⟨c0, h⟩
  | cons hd tl ih =>
    obtain ⟨k0, wd0⟩ := hd
    cases hcv : commitValue wd0 with
    | error e => rw [commitTable_cons_err cat k0 wd0 tl cfg e hcv]; exact ⟨c0, h⟩
    | ok v =>
      cases hsci : setCategoryItem cfg cat k0 v with
      | error e => rw [commitTable_cons_err2 cat k0 wd0 tl cfg v e hcv hsci]; exact ⟨c0, h⟩
      | ok cfg1 =>
        rw [commitTable_cons_ok cat k0 wd0 tl cfg v cfg1 hcv hsci]
        obtain ⟨c, hg, hc1⟩ := setCategoryItem_ok_inv cfg cfg1 cat k0 v hsci
        by_cases hnc : cat = name
        · subst hnc
          refine ih cfg1 (dset c k0 v) ?_
          rw [hc1, dget_dset_self]
        · refine ih cfg1 c0 ?_
          rw [hc1, dget_dset_ne _ _ _ _ hnc]
          exact h

theorem commitTable_ok (cat : String) (fs : List (String × Widget)) (cfg : Dict)
    (c : Dict) (hg : dget cfg cat = some (.obj c))
    (hv : ∀ f ∈ fs, ∃ v, commitValue f.2 = .ok v) :
    (commitTable cat fs cfg).2 = none := by
  induction fs generalizing cfg c with
  | nil => rfl
  | cons hd tl ih =>
    obtain ⟨k0, wd0⟩ := hd
    obtain ⟨v, hcv⟩ := hv (k0, wd0) (by simp)
    simp only at hcv
    have hsci := setCategoryItem_eq_ok cfg cat k0 v c hg
    rw [commitTable_cons_ok cat k0 wd0 tl cfg v _ hcv hsci]
    exact ih (dset cfg cat (.obj (dset c k0 v))) (dset c k0 v) (dget_dset_self _ _ _)
      (fun f hf => hv f (by simp [hf]))

theorem commitTable_success_val (cat : String) (fs : List (String × Widget))
    (cfg cfg2 : Dict) (k : String) (wd : Widget)
    (hnd : (fs.map Prod.fst).Nodup) (hf : dget fs k = some wd)
    (h : commitTable cat fs cfg = (cfg2, none)) :
    ∃ v, commitValue wd = .ok v ∧ valueAt cfg2 cat k = some v := by
  induction fs generalizing cfg with
  | nil => simp [dget] at hf
  | cons hd tl ih =>
    obtain ⟨k0, wd0⟩ := hd
    rw [List.map_cons, List.nodup_cons] at hnd
    cases hcv : commitValue wd0 with
    | error e =>
      rw [commitTable_cons_err cat k0 wd0 tl cfg e hcv] at h
      simp at h
    | ok v0 =>
      cases hsci : setCategoryItem cfg cat k0 v0 with
      | error e =>
        rw [commitTable_cons_err2 cat k0 wd0 tl cfg v0 e hcv hsci] at h
        simp at h
      | ok cfg1 =>
        rw [commitTable_cons_ok cat k0 wd0 tl cfg v0 cfg1 hcv hsci] at h
        obtain ⟨c, hg, hc1⟩ := setCategoryItem_ok_inv cfg cfg1 cat k0 v0 hsci
        by_cases hk0 : k0 = k
        · subst hk0
          rw [show dget ((k0, wd0) :: tl) k0 = some wd0 by simp [dget]] at hf
          have hwd : wd0 = wd := Option.some.inj hf
          subst hwd
          refine ⟨v0, hcv, ?_⟩
          have htl : dget tl k0 = none := dget_eq_none_of_not_mem_keys tl k0 hnd.1
          have hfr := commitTable_valueAt_frame cat tl cfg1 k0 htl
          rw [h] at hfr
          rw [hfr]
          unfold valueAt
          simp only [hc1, dget_dset_self]
        · rw [show dget ((k0, wd0) :: tl) k = dget tl k by simp [dget, hk0]] at hf
          exact ih cfg1 hnd.2 hf h

end ConfigEditor

namespace ConfigEditor

/-- Whether a (category, field) pair is backed by an input widget of the
registry. -/
def widgetBacked (w : Widgets) (cat k : String) : Bool :=
  match dget w cat with
  | some (.table fs) => dhas fs k
  | _ => false

theorem valueAt_congr_dget (cfg1 cfg2 : Dict) (cat k : String)
    (h : dget cfg1 cat = dget cfg2 cat) : valueAt cfg1 cat k = valueAt cfg2 cat k := by
  unfold valueAt
  rw [h]

theorem commitAll_dhas (w : Widgets) (cfg : Dict) (x : String) :
    dhas (commitAll w cfg).1 x = dhas cfg x := by
  induction w generalizing cfg with
  | nil => rfl
  | cons hd tl ih =>
    obtain ⟨n0, e0⟩ := hd
    cases hdc : dhas cfg n0 with
    | false => rw [commitAll_cons_skip n0 e0 tl cfg hdc, ih cfg]
    | true =>
      cases e0 with
      | single => rw [commitAll_cons_single n0 tl cfg hdc]
      | table fs =>
        cases hct : commitTable n0 fs cfg with
        | mk cfg1 er =>
          cases er with
          | none =>
            rw [commitAll_cons_table_ok n0 fs tl cfg cfg1 hdc hct, ih cfg1]
            have h2 := commitTable_dhas n0 fs cfg x
            rw [hct] at h2
            exact h2
          | some e =>
            rw [commitAll_cons_table_err n0 fs tl cfg cfg1 e hdc hct]
            have h2 := commitTable_dhas n0 fs cfg x
            rw [hct] at h2
            exact h2

theorem commitAll_dget_frame (w : Widgets) (cfg : Dict) (name : String)
    (hw : dget w name = none) : dget (commitAll w cfg).1 name = dget cfg name := by
  induction w generalizing cfg with
  | nil => rfl
  | cons hd tl ih =>
    obtain ⟨n0, e0⟩ := hd
    by_cases hn : n0 = name
    · simp [dget, hn] at hw
    · rw [show dget ((n0, e0) :: tl) name = dget tl name by simp [dget, hn]] at hw
      cases hdc : dhas cfg n0 with
      | false => rw [commitAll_cons_skip n0 e0 tl cfg hdc, ih cfg hw]
      | true =>
        cases e0 with
        | single => rw [commitAll_cons_single n0 tl cfg hdc]
        | table fs =>
          cases hct : commitTable n0 fs cfg with
          | mk cfg1 er =>
            have h2 := commitTable_frame_cat n0 fs cfg name hn
            rw [hct] at h2
            cases er with
            | none =>
              rw [commitAll_cons_table_ok n0 fs tl cfg cfg1 hdc hct, ih cfg1 hw]
              exact h2
            | some e =>
              rw [commitAll_cons_table_err n0 fs tl cfg cfg1 e hdc hct]
              exact h2

theorem commitAll_valueAt_frame_nocat (w : Widgets) (cfg : Dict) (cat k : String)
    (hw : dget w cat = none) :
    valueAt (commitAll w cfg).1 cat k = valueAt cfg cat k :=
  valueAt_congr_dget _ _ cat k (commitAll_dget_frame w cfg cat hw)

theorem commitAll_valueAt_frame (w : Widgets) (cfg : Dict) (cat k : String)
    (hnd : (w.map Prod.fst).Nodup) (hb : widgetBacked w cat k = false) :
    valueAt (commitAll w cfg).1 cat k = valueAt cfg cat k := by
  induction w generalizing cfg with
  | nil => rfl
  | cons hd tl ih =>
    obtain ⟨n0, e0⟩ := hd
    rw [List.map_cons, List.nodup_cons] at hnd
    by_cases hn : n0 = cat
    · subst hn
      have hwg : dget ((n0, e0) :: tl) n0 = some e0 := by simp [dget]
      have htl : dget tl n0 = none := dget_eq_none_of_not_mem_keys tl n0 hnd.1
      cases e0 with
      | single =>
        cases hdc : dhas cfg n0 with
        | false =>
          rw [commitAll_cons_skip n0 .single tl cfg hdc]
          exact commitAll_valueAt_frame_nocat tl cfg n0 k htl
        | true => rw [commitAll_cons_single n0 tl cfg hdc]
      | table fs =>
        unfold widgetBacked at hb
        rw [hwg] at hb
        have hb2 : dhas fs k = false := hb
        have hfk : dget fs k = none := by
          have h2 := dhas_eq_isSome fs k
          rw [hb2] at h2
          cases hgk : dget fs k with
          | none => rfl
          | some v => rw [hgk] at h2; simp at h2
        cases hdc : dhas cfg n0 with
        | false =>
          rw [commitAll_cons_skip n0 (.table fs) tl cfg hdc]
          exact commitAll_valueAt_frame_nocat tl cfg n0 k htl
        | true =>
          cases hct : commitTable n0 fs cfg with
          | mk cfg1 er =>
            have h2 := commitTable_valueAt_frame n0 fs cfg k hfk
            rw [hct] at h2
            cases er with
            | none =>
              rw [commitAll_cons_table_ok n0 fs tl cfg cfg1 hdc hct]
              rw [commitAll_valueAt_frame_nocat tl cfg1 n0 k htl]
              exact h2
            | some e =>
              rw [commitAll_cons_table_err n0 fs tl cfg cfg1 e hdc hct]
              exact h2
    · have hwg : dget ((n0, e0) :: tl) cat = dget tl cat := by simp [dget, hn]
      have hb2 : widgetBacked tl cat k = false := by
        unfold widgetBacked at *
        rw [hwg] at hb
        exact hb
      cases hdc : dhas cfg n0 with
      | false => rw [commitAll_cons_skip n0 e0 tl cfg hdc]; exact ih cfg hnd.2 hb2
      | true =>
        cases e0 with
        | single => rw [commitAll_cons_single n0 tl cfg hdc]
        | table fs =>
          cases hct : commitTable n0 fs cfg with
          | mk cfg1 er =>
            have h2 : valueAt cfg1 cat k = valueAt cfg cat k := by
              apply valueAt_congr_dget
              have h3 := commitTable_frame_cat n0 fs cfg cat hn
              rw [hct] at h3
              exact h3
            cases er with
            | none =>
              rw [commitAll_cons_table_ok n0 fs tl cfg cfg1 hdc hct]
              rw [ih cfg1 hnd.2 hb2]
              exact h2
            | some e =>
              rw [commitAll_cons_table_err n0 fs tl cfg cfg1 e hdc hct]
              exact h2

theorem commitAll_ok (w : Widgets) (cfg : Dict)
    (hsingle : ∀ ne ∈ w, ne.2 = WEntry.single → dhas cfg ne.1 = false)
    (htable : ∀ ne ∈ w, ∀ fs, ne.2 = WEntry.table fs →
      (dhas cfg ne.1 = true → ∃ c, dget cfg ne.1 = some (.obj c)) ∧
      ∀ f ∈ fs, ∃ v, commitValue f.2 = .ok v) :
    (commitAll w cfg).2 = none := by
  induction w generalizing cfg with
  | nil => rfl
  | cons hd tl ih =>
    obtain ⟨n0, e0⟩ := hd
    cases e0 with
    | single =>
      have hdc : dhas cfg n0 = false := hsingle (n0, .single) (by simp) rfl
      rw [commitAll_cons_skip n0 .single tl cfg hdc]
      exact ih cfg (fun ne hne => hsingle ne (by simp [hne]))
        (fun ne hne => htable ne (by simp [hne]))
    | table fs =>
      cases hdc : dhas cfg n0 with
      | false =>
        rw [commitAll_cons_skip n0 (.table fs) tl cfg hdc]
        exact ih cfg (fun ne hne => hsingle ne (by simp [hne]))
          (fun ne hne => htable ne (by simp [hne]))
      | true =>
        obtain ⟨hobj, hvals⟩ := htable (n0, .table fs) (by simp) fs rfl
        obtain ⟨c, hc⟩ := hobj hdc
        have hok := commitTable_ok n0 fs cfg c hc hvals
        cases hct : commitTable n0 fs cfg with
        | mk cfg1 er =>
          rw [hct] at hok
          simp only at hok
          subst hok
          rw [commitAll_cons_table_ok n0 fs tl cfg cfg1 hdc hct]
          apply ih cfg1
          · intro ne hne hs
            have h2 := commitTable_dhas n0 fs cfg ne.1
            rw [hct] at h2
            simp only at h2
            rw [h2]
            exact hsingle ne (by simp [hne]) hs
          · intro ne hne fs2 ht
            obtain ⟨hobj2, hvals2⟩ := htable ne (by simp [hne]) fs2 ht
            constructor
            · intro hd2
              have h2 := commitTable_dhas n0 fs cfg ne.1
              rw [hct] at h2
              simp only at h2
              rw [h2] at hd2
              obtain ⟨c2, hc2⟩ := hobj2 hd2
              have h3 := commitTable_obj_at n0 fs cfg ne.1 c2 hc2
              rw [hct] at h3
              exact h3
            · exact hvals2

theorem commitAll_success_val (w : Widgets) (cfg cfg2 : Dict) (cat k : String)
    (fs : List (String × Widget)) (wd : Widget)
    (hndw : (w.map Prod.fst).Nodup) (hw : dget w cat = some (.table fs))
    (hndf : (fs.map Prod.fst).Nodup) (hdc : dhas cfg cat = true)
    (hf : dget fs k = some wd) (h : commitAll w cfg = (cfg2, none)) :
    ∃ v, commitValue wd = .ok v ∧ valueAt cfg2 cat k = some v := by
  induction w generalizing cfg with
  | nil => simp [dget] at hw
  | cons hd tl ih =>
    obtain ⟨n0, e0⟩ := hd
    rw [List.map_cons, List.nodup_cons] at hndw
    by_cases hn : n0 = cat
    · subst hn
      rw [show dget ((n0, e0) :: tl) n0 = some e0 by simp [dget]] at hw
      have he : e0 = .table fs := Option.some.inj hw
      subst he
      cases hct : commitTable n0 fs cfg with
      | mk cfg1 er =>
        cases er with
        | none =>
          rw [commitAll_cons_table_ok n0 fs tl cfg cfg1 hdc hct] at h
          obtain ⟨v, hcv, hval⟩ :=
            commitTable_success_val n0 fs cfg cfg1 k wd hndf hf hct
          refine ⟨v, hcv, ?_⟩
          have htl : dget tl n0 = none := dget_eq_none_of_not_mem_keys tl n0 hndw.1
          have hfr := commitAll_valueAt_frame_nocat tl cfg1 n0 k htl
          rw [h] at hfr
          simp only at hfr
          rw [hfr]
          exact hval
        | some e =>
          rw [commitAll_cons_table_err n0 fs tl cfg cfg1 e hdc hct] at h
          simp at h
    · rw [show dget ((n0, e0) :: tl) cat = dget tl cat by simp [dget, hn]] at hw
      cases hdc0 : dhas cfg n0 with
      | false =>
        rw [commitAll_cons_skip n0 e0 tl cfg hdc0] at h
        exact ih cfg hndw.2 hw hdc h
      | true =>
        cases e0 with
        | single =>
          rw [commitAll_cons_single n0 tl cfg hdc0] at h
          simp at h
        | table fs0 =>
          cases hct : commitTable n0 fs0 cfg with
          | mk cfg1 er =>
            cases er with
            | none =>
              rw [commitAll_cons_table_ok n0 fs0 tl cfg cfg1 hdc0 hct] at h
              have hd1 : dhas cfg1 cat = true := by
                have h2 := commitTable_dhas n0 fs0 cfg cat
                rw [hct] at h2
                simp only at h2
                rw [h2]
                exact hdc
              exact ih cfg1 hndw.2 hw hd1 h
            | some e =>
              rw [commitAll_cons_table_err n0 fs0 tl cfg cfg1 e hdc0 hct] at h
              simp at h

end ConfigEditor

namespace ConfigEditor

/-! ### Decimal string round trip: int(str(n)) recovers n -/

/-- The number denoted by a digit list read most significant first, onto an
accumulator: the loop of the int parser. -/
def digitsVal (acc : Nat) (l : List Char) : Nat :=
  l.foldl (fun a c => a * 10 + (c.toNat - 48)) acc

theorem digitChar_toNat (m : Nat) (h : m < 10) : (digitChar m).toNat = 48 + m := by
  unfold digitChar
  interval_cases m <;> decide

theorem isAsciiDigit_digitChar (m : Nat) (h : m < 10) :
    isAsciiDigit (digitChar m) = true := by
  unfold isAsciiDigit
  rw [digitChar_toNat m h]
  simp
  omega

theorem natDigitsRevAux_succ_lt (f n : Nat) (h : n < 10) :
    natDigitsRevAux (f + 1) n = [digitChar n] := by
  conv_lhs => unfold natDigitsRevAux
  rw [if_pos h]

theorem natDigitsRevAux_succ_ge (f n : Nat) (h : ¬n < 10) :
    natDigitsRevAux (f + 1) n = digitChar (n % 10) :: natDigitsRevAux f (n / 10) := by
  conv_lhs => unfold natDigitsRevAux
  rw [if_neg h]

theorem natDigitsRevAux_spec (fuel : Nat) :
    ∀ n, n < fuel →
      (∀ c ∈ natDigitsRevAux fuel n, isAsciiDigit c = true) ∧
      digitsVal 0 (natDigitsRevAux fuel n).reverse = n ∧
      natDigitsRevAux fuel n ≠ [] := by
  induction fuel with
  | zero => intro n hn; omega
  | succ f ih =>
    intro n hn
    by_cases h10 : n < 10
    · rw [natDigitsRevAux_succ_lt f n h10]
      refine ⟨?_, ?_, by simp⟩
      · intro c hc
        rw [List.mem_singleton] at hc
        subst hc
        exact isAsciiDigit_digitChar n h10
      · unfold digitsVal
        simp [digitChar_toNat n h10]
    · have hrec : n / 10 < f := by
        have h2 : n / 10 < n := Nat.div_lt_self (by omega) (by omega)
        omega
      obtain ⟨ih1, ih2, ih3⟩ := ih (n / 10) hrec
      rw [natDigitsRevAux_succ_ge f n h10]
      have hmod : n % 10 < 10 := Nat.mod_lt n (by omega)
      refine ⟨?_, ?_, by simp⟩
      · intro c hc
        rw [List.mem_cons] at hc
        cases hc with
        | inl hc => subst hc; exact isAsciiDigit_digitChar _ hmod
        | inr hc => exact ih1 c hc
      · rw [List.reverse_cons]
        unfold digitsVal at *
        rw [List.foldl_append, ih2]
        simp [digitChar_toNat _ hmod]
        omega

theorem natDigitsRev_spec (n : Nat) :
    (∀ c ∈ natDigitsRev n, isAsciiDigit c = true) ∧
      digitsVal 0 (natDigitsRev n).reverse = n ∧
      natDigitsRev n ≠ [] :=
  natDigitsRevAux_spec (n + 1) n (by omega)

theorem parseDigitsAux_cons_digit (c : Char) (rest : List Char) (acc : Nat)
    (hc : isAsciiDigit c = true) :
    parseDigitsAux (c :: rest) acc = parseDigitsAux rest (acc * 10 + (c.toNat - 48)) := by
  conv_lhs => unfold parseDigitsAux
  rw [hc, if_pos rfl]

theorem parseUnsignedPyInt_cons (c : Char) (rest : List Char) :
    parseUnsignedPyInt (c :: rest) =
      if isAsciiDigit c = true then parseDigitsAux rest (c.toNat - 48) else none := rfl

theorem parseDigitsAux_digits (l : List Char) :
    ∀ acc, (∀ c ∈ l, isAsciiDigit c = true) →
      parseDigitsAux l acc = some (digitsVal acc l) := by
  induction l with
  | nil => intro acc h; rfl
  | cons c rest ih =>
    intro acc h
    have hc : isAsciiDigit c = true := h c (by simp)
    rw [parseDigitsAux_cons_digit c rest acc hc]
    exact ih _ (fun c2 hc2 => h c2 (by simp [hc2]))

theorem parseUnsignedPyInt_digits (l : List Char) (hne : l ≠ [])
    (h : ∀ c ∈ l, isAsciiDigit c = true) :
    parseUnsignedPyInt l = some (digitsVal 0 l) := by
  cases l with
  | nil => exact absurd rfl hne
  | cons c rest =>
    have hc : isAsciiDigit c = true := h c (by simp)
    rw [parseUnsignedPyInt_cons, hc, if_pos rfl]
    rw [parseDigitsAux_digits rest (c.toNat - 48) (fun c2 hc2 => h c2 (by simp [hc2]))]
    unfold digitsVal
    rw [List.foldl_cons]
    norm_num

theorem isAsciiDigit_ne_plus (c : Char) (h : isAsciiDigit c = true) : c ≠ '+' := by
  intro hc
  subst hc
  simp [isAsciiDigit] at h

theorem isAsciiDigit_ne_minus (c : Char) (h : isAsciiDigit c = true) : c ≠ '-' := by
  intro hc
  subst hc
  simp [isAsciiDigit] at h

theorem natStr_data (n : Nat) : (natStr n).data = (natDigitsRev n).reverse := rfl

theorem pyInt_of_data (s : String) (c : Char) (rest : List Char)
    (h : s.data = c :: rest) :
    pyInt s =
      if c = '+' then
        match parseUnsignedPyInt rest with
        | some n => .ok (Int.ofNat n)
        | none => .error .valueError
      else if c = '-' then
        match parseUnsignedPyInt rest with
        | some n => .ok (-(Int.ofNat n))
        | none => .error .valueError
      else
        match parseUnsignedPyInt (c :: rest) with
        | some n => .ok (Int.ofNat n)
        | none => .error .valueError := by
  unfold pyInt
  rw [h]

theorem pyInt_natStr (n : Nat) : pyInt (natStr n) = .ok (Int.ofNat n) := by
  obtain ⟨hdig, hval, hne⟩ := natDigitsRev_spec n
  have hdig2 : ∀ c ∈ (natDigitsRev n).reverse, isAsciiDigit c = true := by
    intro c hc
    exact hdig c (List.mem_reverse.mp hc)
  have hne2 : (natDigitsRev n).reverse ≠ [] := by
    intro hh
    exact hne (by simpa using congrArg List.reverse hh)
  cases hrev : (natDigitsRev n).reverse with
  | nil => exact absurd hrev hne2
  | cons c rest =>
    rw [hrev] at hdig2 hval
    have hc : isAsciiDigit c = true := hdig2 c (by simp)
    rw [pyInt_of_data (natStr n) c rest (by rw [natStr_data, hrev])]
    rw [if_neg (isAsciiDigit_ne_plus c hc), if_neg (isAsciiDigit_ne_minus c hc)]
    rw [parseUnsignedPyInt_digits (c :: rest) (by simp) hdig2, hval]

theorem natStr_all_digits (n : Nat) :
    ∀ c ∈ (natStr n).data, isAsciiDigit c = true := by
  obtain ⟨hdig, -, -⟩ := natDigitsRev_spec n
  intro c hc
  rw [natStr_data, List.mem_reverse] at hc
  exact hdig c hc

theorem isAsciiDigit_not_space (c : Char) (h : isAsciiDigit c = true) :
    pyIsSpace c = false := by
  unfold isAsciiDigit at h
  rw [Bool.and_eq_true, decide_eq_true_iff, decide_eq_true_iff] at h
  unfold pyIsSpace
  have hs : (' ').toNat = 32 := by decide
  have ht : ('\t').toNat = 9 := by decide
  have hn : ('\n').toNat = 10 := by decide
  have hr : ('\r').toNat = 13 := by decide
  have hv : (Char.ofNat 11).toNat = 11 := by decide
  have hf : (Char.ofNat 12).toNat = 12 := by decide
  have h1 : c ≠ ' ' := fun hc => by rw [hc, hs] at h; omega
  have h2 : c ≠ '\t' := fun hc => by rw [hc, ht] at h; omega
  have h3 : c ≠ '\n' := fun hc => by rw [hc, hn] at h; omega
  have h4 : c ≠ '\r' := fun hc => by rw [hc, hr] at h; omega
  have h5 : c ≠ Char.ofNat 11 := fun hc => by rw [hc, hv] at h; omega
  have h6 : c ≠ Char.ofNat 12 := fun hc => by rw [hc, hf] at h; omega
  simp [h1, h2, h3, h4, h5, h6]

theorem dropWhile_eq_self_of_none {α : Type} (p : α → Bool) (l : List α)
    (h : ∀ c ∈ l, p c = false) : l.dropWhile p = l := by
  cases l with
  | nil => rfl
  | cons c rest =>
    rw [List.dropWhile_cons, h c (by simp)]
    simp

theorem pyStrip_eq_self (s : String) (h : ∀ c ∈ s.data, pyIsSpace c = false) :
    pyStrip s = s := by
  unfold pyStrip
  rw [dropWhile_eq_self_of_none pyIsSpace s.data h]
  rw [dropWhile_eq_self_of_none pyIsSpace s.data.reverse
    (fun c hc => h c (List.mem_reverse.mp hc))]
  rw [List.reverse_reverse]

theorem intStr_data_nonneg (i : Int) (h : 0 ≤ i) : intStr i = natStr i.toNat := by
  unfold intStr
  rw [if_neg (by omega)]

theorem intStr_data_neg (i : Int) (h : i < 0) : intStr i = "-" ++ natStr i.natAbs := by
  unfold intStr
  rw [if_pos h]

theorem intStr_no_space (i : Int) : ∀ c ∈ (intStr i).data, pyIsSpace c = false := by
  intro c hc
  by_cases h : i < 0
  · rw [intStr_data_neg i h, String.data_append, List.mem_append] at hc
    cases hc with
    | inl hc =>
      rw [show ("-" : String).data = ['-'] from rfl, List.mem_singleton] at hc
      subst hc
      decide
    | inr hc => exact isAsciiDigit_not_space c (natStr_all_digits _ c hc)
  · rw [intStr_data_nonneg i (by omega)] at hc
    exact isAsciiDigit_not_space c (natStr_all_digits _ c hc)

theorem pyStrip_intStr (i : Int) : pyStrip (intStr i) = intStr i :=
  pyStrip_eq_self _ (intStr_no_space i)

theorem natStr_ne_empty_data (n : Nat) : (natStr n).data ≠ [] := by
  obtain ⟨-, -, hne⟩ := natDigitsRev_spec n
  rw [natStr_data]
  intro hh
  exact hne (by simpa using congrArg List.reverse hh)

theorem intStr_ne_empty (i : Int) : intStr i ≠ "" := by
  intro hh
  have hd := congrArg String.data hh
  by_cases h : i < 0
  · rw [intStr_data_neg i h] at hd
    rw [String.data_append] at hd
    rw [show ("-" : String).data = ['-'] from rfl] at hd
    simp at hd
  · rw [intStr_data_nonneg i (by omega)] at hd
    exact natStr_ne_empty_data i.toNat (by simpa using hd)

theorem pyInt_intStr (i : Int) : pyInt (intStr i) = .ok i := by
  by_cases h : i < 0
  · have hdata : (intStr i).data = '-' :: (natStr i.natAbs).data := by
      rw [intStr_data_neg i h, String.data_append]
      rfl
    rw [pyInt_of_data _ _ _ hdata]
    rw [if_neg (by decide), if_pos rfl]
    have hd3 : ∀ c ∈ (natStr i.natAbs).data, isAsciiDigit c = true := natStr_all_digits _
    rw [parseUnsignedPyInt_digits _ (natStr_ne_empty_data i.natAbs) hd3]
    show Except.ok (-(Int.ofNat (digitsVal 0 (natStr i.natAbs).data))) = Except.ok i
    obtain ⟨-, hval, -⟩ := natDigitsRev_spec i.natAbs
    rw [natStr_data, hval]
    have h2 : -(Int.ofNat i.natAbs) = i := by
      have h3 : ((i.natAbs : Int)) = -i := by omega
      rw [show Int.ofNat i.natAbs = ((i.natAbs : Int)) from rfl, h3, neg_neg]
    rw [h2]
  · rw [intStr_data_nonneg i (by omega), pyInt_natStr]
    have h2 : Int.ofNat i.toNat = i := by
      rw [show Int.ofNat i.toNat = ((i.toNat : Int)) from rfl]
      omega
    rw [h2]

theorem commitValue_line (t : String) (en : Bool) :
    commitValue (.line t en) =
      (if pyStrip t = "" then .ok (.int 0)
       else
         match pyInt (pyStrip t) with
         | .ok n => .ok (.int n)
         | .error e => .error e) := rfl

/-- The committed value of a line edit populated with str(n) is n itself:
int(str(n).strip()) round-trips every integer. -/
theorem commitValue_line_int (n : Int) (en : Bool) :
    commitValue (.line (pyStr (.int n)) en) = .ok (.int n) := by
  rw [show pyStr (.int n) = intStr n from rfl, commitValue_line, pyStrip_intStr]
  rw [if_neg (intStr_ne_empty n), pyInt_intStr]

/-- The committed value of a checkbox populated with bool(b) is b. -/
theorem commitValue_check_bool (b : Bool) (en : Bool) :
    commitValue (.check (pyBool (.bool b)) en) = .ok (.bool b) := by
  cases b <;> rfl

/-! ### Bound on validator-conformant texts -/

theorem digitsVal_bound (l : List Char) :
    ∀ acc, (∀ c ∈ l, isAsciiDigit c = true) →
      digitsVal acc l < (acc + 1) * 10 ^ l.length := by
  induction l with
  | nil => intro acc h; unfold digitsVal; simp
  | cons c rest ih =>
    intro acc h
    have hc : isAsciiDigit c = true := h c (by simp)
    have hc9 : c.toNat - 48 ≤ 9 := by
      unfold isAsciiDigit at hc
      rw [Bool.and_eq_true, decide_eq_true_iff, decide_eq_true_iff] at hc
      omega
    unfold digitsVal
    rw [List.foldl_cons]
    have ih2 := ih (acc * 10 + (c.toNat - 48)) (fun c2 hc2 => h c2 (by simp [hc2]))
    unfold digitsVal at ih2
    calc List.foldl (fun a c => a * 10 + (c.toNat - 48)) (acc * 10 + (c.toNat - 48)) rest
        < (acc * 10 + (c.toNat - 48) + 1) * 10 ^ rest.length := ih2
      _ ≤ (acc + 1) * 10 ^ (c :: rest).length := by
          rw [List.length_cons, pow_succ]
          nlinarith [pow_pos (by omega : (0:Nat) < 10) rest.length]

theorem parseUnsignedPyInt_bound (l : List Char) (m : Nat) (hlen : l.length ≤ 9)
    (h : ∀ c ∈ l, isAsciiDigit c = true) (hp : parseUnsignedPyInt l = some m) :
    m ≤ 999999999 := by
  cases l with
  | nil => simp [parseUnsignedPyInt] at hp
  | cons c rest =>
    rw [parseUnsignedPyInt_digits (c :: rest) (by simp) h] at hp
    have hb := digitsVal_bound (c :: rest) 0 h
    have hm : m = digitsVal 0 (c :: rest) := (Option.some.inj hp).symm
    have hpow : (10 : Nat) ^ (c :: rest).length ≤ 10 ^ 9 :=
      Nat.pow_le_pow_right (by omega) hlen
    have h9 : (10 : Nat) ^ 9 = 1000000000 := by norm_num
    omega

end ConfigEditor

namespace ConfigEditor

/-! ### Transfer lemmas along the registry shape -/

theorem dget_mem {α : Type} (l : List (String × α)) (k : String) (v : α)
    (h : dget l k = some v) : (k, v) ∈ l := by
  induction l with
  | nil => simp [dget] at h
  | cons hd tl ih =>
    obtain ⟨k2, v2⟩ := hd
    by_cases hk : k2 = k
    · subst hk
      rw [show dget ((k2, v2) :: tl) k2 = some v2 by simp [dget]] at h
      rw [Option.some.inj h]
      simp
    · rw [show dget ((k2, v2) :: tl) k = dget tl k by simp [dget, hk]] at h
      simp [ih h]

theorem dhas_true_mem {α : Type} (l : List (String × α)) (k : String)
    (h : dhas l k = true) : ∃ v, (k, v) ∈ l := by
  have h2 := dhas_eq_isSome l k
  rw [h] at h2
  cases hg : dget l k with
  | none => rw [hg] at h2; simp at h2
  | some v => exact ⟨v, dget_mem l k v hg⟩

theorem dget_of_mem_nodup {α : Type} (l : List (String × α)) (p : String × α)
    (hnd : (l.map Prod.fst).Nodup) (hm : p ∈ l) : dget l p.1 = some p.2 := by
  induction l with
  | nil => simp at hm
  | cons hd tl ih =>
    obtain ⟨k2, v2⟩ := hd
    rw [List.map_cons, List.nodup_cons] at hnd
    rw [List.mem_cons] at hm
    cases hm with
    | inl hm =>
      subst hm
      simp [dget]
    | inr hm =>
      have hk : k2 ≠ p.1 := by
        intro hh
        apply hnd.1
        rw [hh]
        exact List.mem_map.mpr ⟨p, hm, rfl⟩
      rw [show dget ((k2, v2) :: tl) p.1 = dget tl p.1 by simp [dget, hk]]
      exact ih hnd.2 hm

theorem dget_map_fst_preserving {α β : Type} (F : String × α → String × β)
    (hF : ∀ ne, (F ne).1 = ne.1) (l : List (String × α)) (k : String) :
    dget (l.map F) k = (dget l k).map (fun e => (F (k, e)).2) := by
  induction l with
  | nil => rfl
  | cons hd tl ih =>
    obtain ⟨k2, v2⟩ := hd
    rw [List.map_cons]
    by_cases hk : k2 = k
    · subst hk
      have h1 : (F (k2, v2)).1 = k2 := hF (k2, v2)
      rw [show dget (F (k2, v2) :: tl.map F) k2 = some (F (k2, v2)).2 by
        cases hFe : F (k2, v2) with
        | mk a b =>
          have : a = k2 := by rw [← h1, hFe]
          subst this
          simp [dget]]
      rw [show dget ((k2, v2) :: tl) k2 = some v2 by simp [dget]]
      rfl
    · have h1 : (F (k2, v2)).1 = k2 := hF (k2, v2)
      rw [show dget (F (k2, v2) :: tl.map F) k = dget (tl.map F) k by
        cases hFe : F (k2, v2) with
        | mk a b =>
          have : a = k2 := by rw [← h1, hFe]
          subst this
          simp [dget, hk]]
      rw [show dget ((k2, v2) :: tl) k = dget tl k by simp [dget, hk]]
      exact ih

theorem map_fst_of_map_fst_preserving {α β : Type} (F : String × α → String × β)
    (hF : ∀ ne, (F ne).1 = ne.1) (l : List (String × α)) :
    (l.map F).map Prod.fst = l.map Prod.fst := by
  rw [List.map_map]
  apply List.map_congr_left
  intro ne _
  exact hF ne

theorem wShape_fst (w : Widgets) : (wShape w).map Prod.fst = w.map Prod.fst := by
  unfold wShape
  rw [List.map_map]
  rfl

theorem wf_names (w : Widgets) (h : WidgetsWf w) :
    w.map Prod.fst = initWidgets.map Prod.fst := by
  rw [← wShape_fst, ← wShape_fst]
  exact congrArg (List.map Prod.fst) h

theorem wf_names_nodup (w : Widgets) (h : WidgetsWf w) : (w.map Prod.fst).Nodup := by
  rw [wf_names w h]
  decide

theorem dget_entryShape_of_shape (w1 w2 : Widgets) (h : wShape w1 = wShape w2)
    (name : String) :
    (dget w1 name).map entryShape = (dget w2 name).map entryShape := by
  have h1 := dget_mapSnd entryShape w1 name
  have h2 := dget_mapSnd entryShape w2 name
  rw [← h1, ← h2]
  exact congrArg (fun l => dget l name) h

theorem table_shape_of_table (w1 w2 : Widgets) (h : wShape w1 = wShape w2)
    (name : String) (fs : List (String × Widget))
    (hg : dget w1 name = some (.table fs)) :
    ∃ fs2, dget w2 name = some (.table fs2) ∧
      fs.map (fun f => (f.1, isLineWidget f.2)) = fs2.map (fun f => (f.1, isLineWidget f.2)) := by
  have h2 := dget_entryShape_of_shape w1 w2 h name
  rw [hg] at h2
  cases hg2 : dget w2 name with
  | none => rw [hg2] at h2; simp at h2
  | some e2 =>
    rw [hg2] at h2
    have h3 : entryShape (WEntry.table fs) = entryShape e2 := by simpa using h2
    cases e2 with
    | single => simp [entryShape] at h3
    | table fs2 =>
      refine ⟨fs2, rfl, ?_⟩
      simpa [entryShape] using h3

theorem single_of_single_shape (w1 w2 : Widgets) (h : wShape w1 = wShape w2)
    (name : String) (hg : dget w1 name = some .single) :
    dget w2 name = some .single := by
  have h2 := dget_entryShape_of_shape w1 w2 h name
  rw [hg] at h2
  cases hg2 : dget w2 name with
  | none => rw [hg2] at h2; simp at h2
  | some e2 =>
    rw [hg2] at h2
    have h3 : entryShape WEntry.single = entryShape e2 := by simpa using h2
    cases e2 with
    | single => rfl
    | table fs2 => simp [entryShape] at h3

theorem dhas_of_map_fst {α β : Type} (l1 : List (String × α)) (l2 : List (String × β))
    (h : l1.map Prod.fst = l2.map Prod.fst) (k : String) : dhas l1 k = dhas l2 k := by
  induction l1 generalizing l2 with
  | nil =>
    cases l2 with
    | nil => rfl
    | cons hd tl => simp at h
  | cons hd tl ih =>
    cases l2 with
    | nil => simp at h
    | cons hd2 tl2 =>
      obtain ⟨k1, v1⟩ := hd
      obtain ⟨k2, v2⟩ := hd2
      rw [List.map_cons, List.map_cons] at h
      have hh := List.cons.inj h
      simp only at hh
      rw [show dhas ((k1, v1) :: tl) k = (decide (k1 = k) || dhas tl k) from rfl]
      rw [show dhas ((k2, v2) :: tl2) k = (decide (k2 = k) || dhas tl2 k) from rfl]
      rw [hh.1, ih tl2 hh.2]

/-- The widget kind backing a (category, field): true for a line edit,
false for a checkbox, none when not widget-backed.  Determined by the
registry shape. -/
def widgetKindAt (w : Widgets) (cat k : String) : Option Bool :=
  match dget w cat with
  | some (.table fs) => (dget fs k).map isLineWidget
  | _ => none

theorem widgetKindAt_of_shape (w1 w2 : Widgets) (h : wShape w1 = wShape w2)
    (cat k : String) : widgetKindAt w1 cat k = widgetKindAt w2 cat k := by
  unfold widgetKindAt
  cases hg : dget w1 cat with
  | none =>
    have h2 := dget_entryShape_of_shape w1 w2 h cat
    rw [hg] at h2
    cases hg2 : dget w2 cat with
    | none => rfl
    | some e2 => rw [hg2] at h2; simp at h2
  | some e1 =>
    cases e1 with
    | single =>
      rw [single_of_single_shape w1 w2 h cat hg]
    | table fs =>
      obtain ⟨fs2, hg2, hsh⟩ := table_shape_of_table w1 w2 h cat fs hg
      rw [hg2]
      show Option.map isLineWidget (dget fs k) = Option.map isLineWidget (dget fs2 k)
      have k1 := dget_mapSnd isLineWidget fs k
      have k2 := dget_mapSnd isLineWidget fs2 k
      rw [← k1, ← k2]
      exact congrArg (fun l => dget l k) hsh

theorem widgetBacked_of_shape (w1 w2 : Widgets) (h : wShape w1 = wShape w2)
    (cat k : String) : widgetBacked w1 cat k = widgetBacked w2 cat k := by
  unfold widgetBacked
  cases hg : dget w1 cat with
  | none =>
    have h2 := dget_entryShape_of_shape w1 w2 h cat
    rw [hg] at h2
    cases hg2 : dget w2 cat with
    | none => rfl
    | some e2 => rw [hg2] at h2; simp at h2
  | some e1 =>
    cases e1 with
    | single =>
      rw [single_of_single_shape w1 w2 h cat hg]
    | table fs =>
      obtain ⟨fs2, hg2, hsh⟩ := table_shape_of_table w1 w2 h cat fs hg
      rw [hg2]
      apply dhas_of_map_fst
      have e1 := map_fst_of_map_fst_preserving (fun f => (f.1, isLineWidget f.2)) (fun ne => rfl) fs
      have e2 := map_fst_of_map_fst_preserving (fun f => (f.1, isLineWidget f.2)) (fun ne => rfl) fs2
      rw [← e1, ← e2, hsh]

theorem wf_table_keys_nodup (w : Widgets) (hwf : WidgetsWf w) (cat : String)
    (fs : List (String × Widget)) (hw : dget w cat = some (.table fs)) :
    (fs.map Prod.fst).Nodup := by
  obtain ⟨fs2, hg2, hsh⟩ := table_shape_of_table w initWidgets hwf cat fs hw
  have hmf : fs.map Prod.fst = fs2.map Prod.fst := by
    have e1 := map_fst_of_map_fst_preserving (fun f => (f.1, isLineWidget f.2)) (fun ne => rfl) fs
    have e2 := map_fst_of_map_fst_preserving (fun f => (f.1, isLineWidget f.2)) (fun ne => rfl) fs2
    rw [← e1, ← e2, hsh]
  rw [hmf]
  have hkey : ∀ p ∈ wShape initWidgets,
      (match p.2 with
       | none => true
       | some sh => decide ((sh.map Prod.fst).Nodup)) = true := by
    decide
  have hmem : ((cat, WEntry.table fs2) : String × WEntry) ∈ initWidgets :=
    dget_mem initWidgets cat _ hg2
  have hmem2 : (cat, entryShape (WEntry.table fs2)) ∈ wShape initWidgets :=
    List.mem_map.mpr ⟨(cat, .table fs2), hmem, rfl⟩
  have h4 := hkey _ hmem2
  have h5 : ((fs2.map (fun f => (f.1, isLineWidget f.2))).map Prod.fst).Nodup := by
    simpa [entryShape] using h4
  rw [map_fst_of_map_fst_preserving (fun f => (f.1, isLineWidget f.2)) (fun ne => rfl) fs2] at h5
  exact h5

end ConfigEditor

namespace ConfigEditor

/-! ### populate_ui success conditions and defaulting identities -/

theorem populateOk_of_conditions (w : Widgets) (cfg : Dict)
    (h : ∀ ne ∈ w, (ne.2 = WEntry.single → dhas cfg ne.1 = false) ∧
      (∀ fs, ne.2 = WEntry.table fs →
        dhas cfg ne.1 = false ∨ ∃ c, dget cfg ne.1 = some (.obj c))) :
    populateOk cfg w = true := by
  unfold populateOk
  rw [List.all_eq_true]
  intro ne hne
  obtain ⟨h1, h2⟩ := h ne hne
  obtain ⟨name, e⟩ := ne
  cases e with
  | single =>
    have hd := h1 rfl
    have hn : dget cfg name = none := dhas_false_dget cfg name hd
    simp [hn]
  | table fs =>
    rcases h2 fs rfl with hd | ⟨c, hc⟩
    · have hn : dget cfg name = none := dhas_false_dget cfg name hd
      simp [hn]
    · simp [hc]

theorem populateOk_spec (cfg : Dict) (w : Widgets) (h : populateOk cfg w = true) :
    ∀ ne ∈ w, (ne.2 = WEntry.single → dget cfg ne.1 = none) ∧
      (∀ fs, ne.2 = WEntry.table fs →
        dget cfg ne.1 = none ∨ ∃ c, dget cfg ne.1 = some (.obj c)) := by
  unfold populateOk at h
  rw [List.all_eq_true] at h
  intro ne hne
  have h2 := h ne hne
  obtain ⟨name, e⟩ := ne
  constructor
  · intro hs
    simp only at hs
    subst hs
    cases hg : dget cfg name with
    | none => rfl
    | some v => rw [show (name, WEntry.single).1 = name from rfl, hg] at h2; simp at h2
  · intro fs ht
    simp only at ht
    subst ht
    cases hg : dget cfg name with
    | none => exact Or.inl rfl
    | some v =>
      rw [show (name, WEntry.table fs).1 = name from rfl, hg] at h2
      cases v with
      | obj c => exact Or.inr ⟨c, rfl⟩
      | int n => simp at h2
      | bool b => simp at h2
      | str s => simp at h2
      | null => simp at h2
      | arr l => simp at h2

theorem commitAll_success_no_single_hit (w : Widgets) (cfg cfg2 : Dict)
    (h : commitAll w cfg = (cfg2, none)) :
    ∀ ne ∈ w, ne.2 = WEntry.single → dhas cfg ne.1 = false := by
  induction w generalizing cfg with
  | nil => intro ne hne; simp at hne
  | cons hd tl ih =>
    obtain ⟨n0, e0⟩ := hd
    intro ne hne hs
    rw [List.mem_cons] at hne
    cases hne with
    | inl hne =>
      subst hne
      simp only at hs
      subst hs
      show dhas cfg n0 = false
      cases hdc : dhas cfg n0 with
      | false => rfl
      | true =>
        rw [commitAll_cons_single n0 tl cfg hdc] at h
        simp at h
    | inr hne =>
      cases hdc : dhas cfg n0 with
      | false =>
        rw [commitAll_cons_skip n0 e0 tl cfg hdc] at h
        exact ih cfg h ne hne hs
      | true =>
        cases e0 with
        | single =>
          rw [commitAll_cons_single n0 tl cfg hdc] at h
          simp at h
        | table fs =>
          cases hct : commitTable n0 fs cfg with
          | mk cfg1 er =>
            cases er with
            | none =>
              rw [commitAll_cons_table_ok n0 fs tl cfg cfg1 hdc hct] at h
              have h2 := ih cfg1 h ne hne hs
              have h3 := commitTable_dhas n0 fs cfg ne.1
              rw [hct] at h3
              simp only at h3
              rw [← h3]
              exact h2
            | some e =>
              rw [commitAll_cons_table_err n0 fs tl cfg cfg1 e hdc hct] at h
              simp at h

theorem dsetdefault_id {α : Type} (d : List (String × α)) (k : String) (v : α)
    (h : dhas d k = true) : dsetdefault d k v = d := by
  induction d with
  | nil => simp [dhas] at h
  | cons hd tl ih =>
    obtain ⟨k2, v2⟩ := hd
    by_cases hk : k2 = k
    · simp [dsetdefault, hk]
    · rw [show dhas ((k2, v2) :: tl) k = (decide (k2 = k) || dhas tl k) from rfl] at h
      simp only [hk, decide_eq_true_eq, decide_eq_false hk, Bool.false_or] at h
      simp [dsetdefault, hk, ih h]

theorem setdefaultAll_id (c : Dict) (fields : Dict)
    (h : ∀ f ∈ fields, dhas c f.1 = true) : setdefaultAll c fields = c := by
  induction fields with
  | nil => rfl
  | cons hd tl ih =>
    obtain ⟨k, v⟩ := hd
    rw [setdefaultAll_cons, dsetdefault_id c k v (h (k, v) (by simp))]
    exact ih (fun f hf => h f (by simp [hf]))

/-- A document that already contains every DefaultsTable category and
field. -/
def fullyPopulated (d : Dict) : Bool :=
  FALLBACK_DEFAULTS.all (fun p =>
    match dget d p.1 with
    | some (.obj c) => p.2.all (fun f => dhas c f.1)
    | _ => false)

theorem applyDefaultsFrom_id (L : List (String × Dict)) (d : Dict)
    (h : ∀ p ∈ L, ∃ c, dget d p.1 = some (.obj c) ∧ ∀ f ∈ p.2, dhas c f.1 = true) :
    applyDefaultsFrom L d = .ok d := by
  induction L with
  | nil => rfl
  | cons hd tl ih =>
    obtain ⟨cat, fields⟩ := hd
    obtain ⟨c, hc, hfields⟩ := h (cat, fields) (by simp)
    have hshape : catShapeOk d cat = true := by unfold catShapeOk; rw [hc]
    have hcc : catContents d cat = c := by unfold catContents; rw [hc]
    unfold applyDefaultsFrom
    rw [ensureCategory_eq_ok d cat fields hshape, hcc,
      setdefaultAll_id c fields hfields, dset_eq_of_dget d cat (.obj c) hc]
    exact ih (fun p hp => h p (by simp [hp]))

theorem applyDefaults_id_of_full (d : Dict) (h : fullyPopulated d = true) :
    applyDefaults (.obj d) = .ok d := by
  unfold applyDefaults
  apply applyDefaultsFrom_id
  intro p hp
  unfold fullyPopulated at h
  rw [List.all_eq_true] at h
  have h2 := h p hp
  cases hg : dget d p.1 with
  | none => rw [hg] at h2; simp at h2
  | some v =>
    rw [hg] at h2
    cases v with
    | obj c =>
      refine ⟨c, rfl, ?_⟩
      intro f hf
      have h3 : p.2.all (fun f => dhas c f.1) = true := h2
      exact List.all_eq_true.mp h3 f hf
    | int n => simp at h2
    | bool b => simp at h2
    | str s => simp at h2
    | null => simp at h2
    | arr l => simp at h2

end ConfigEditor

namespace ConfigEditor

/-! ### Typed documents and the registry-to-defaults correspondence -/

/-- Whether a default value marks an integer field (line edit) as opposed
to a boolean field (checkbox). -/
def isIntDefault : JVal → Bool
  | .int _ => true
  | _ => false

/-- Every recognized field holds a value of its default's type, integers
within the validator bounds 0..999999999. -/
def typeOk (d : Dict) : Bool :=
  FALLBACK_DEFAULTS.all (fun p => p.2.all (fun f =>
    match f.2, valueAt d p.1 f.1 with
    | .int _, some (.int n) => decide (0 ≤ n) && decide (n ≤ 999999999)
    | .bool _, some (.bool _) => true
    | _, _ => false))

theorem valueAt_some_obj (d : Dict) (cat k : String) (v : JVal)
    (h : valueAt d cat k = some v) :
    ∃ c, dget d cat = some (.obj c) ∧ dget c k = some v := by
  unfold valueAt at h
  cases hg : dget d cat with
  | none => rw [hg] at h; exact absurd h (by simp)
  | some v2 =>
    rw [hg] at h
    cases v2 with
    | obj c => exact ⟨c, rfl, h⟩
    | int n => exact absurd h (by simp)
    | bool b => exact absurd h (by simp)
    | str s => exact absurd h (by simp)
    | null => exact absurd h (by simp)
    | arr l => exact absurd h (by simp)

theorem typeOk_spec (d : Dict) (h : typeOk d = true) (p : String × Dict)
    (hp : p ∈ FALLBACK_DEFAULTS) (f : String × JVal) (hf : f ∈ p.2) :
    (∀ m : Int, f.2 = JVal.int m →
      ∃ n : Int, valueAt d p.1 f.1 = some (.int n) ∧ 0 ≤ n ∧ n ≤ 999999999) ∧
    (∀ b0 : Bool, f.2 = JVal.bool b0 →
      ∃ b : Bool, valueAt d p.1 f.1 = some (.bool b)) := by
  unfold typeOk at h
  have h1 := List.all_eq_true.mp h p hp
  have h2 : (match f.2, valueAt d p.1 f.1 with
    | JVal.int _, some (JVal.int n) => decide (0 ≤ n) && decide (n ≤ 999999999)
    | JVal.bool _, some (JVal.bool _) => true
    | _, _ => false) = true := List.all_eq_true.mp h1 f hf
  constructor
  · intro m hm
    rw [hm] at h2
    cases hv : valueAt d p.1 f.1 with
    | none => rw [hv] at h2; simp at h2
    | some v =>
      rw [hv] at h2
      cases v with
      | int n =>
        simp only [Bool.and_eq_true, decide_eq_true_iff] at h2
        exact ⟨n, rfl, h2.1, h2.2⟩
      | bool b => simp at h2
      | str s => simp at h2
      | null => simp at h2
      | arr l => simp at h2
      | obj o => simp at h2
  · intro b0 hb
    rw [hb] at h2
    cases hv : valueAt d p.1 f.1 with
    | none => rw [hv] at h2; simp at h2
    | some v =>
      rw [hv] at h2
      cases v with
      | bool b => exact ⟨b, rfl⟩
      | int n => simp at h2
      | str s => simp at h2
      | null => simp at h2
      | arr l => simp at h2
      | obj o => simp at h2

theorem typeOk_cat_obj (d : Dict) (h : typeOk d = true) (cat : String) (fields : Dict)
    (hc : dget FALLBACK_DEFAULTS cat = some fields) :
    ∃ c, dget d cat = some (.obj c) := by
  have hmem : (cat, fields) ∈ FALLBACK_DEFAULTS := dget_mem _ _ _ hc
  have hne : ∀ p ∈ FALLBACK_DEFAULTS, p.2 ≠ ([] : Dict) := by decide
  have hkind : ∀ p ∈ FALLBACK_DEFAULTS, ∀ f0 ∈ p.2,
      (match f0.2 with
       | JVal.int _ => true
       | JVal.bool _ => true
       | _ => false) = true := by decide
  cases hfield : fields with
  | nil => exact absurd (by rw [hfield]) (hne (cat, fields) hmem)
  | cons f rest =>
    have hf : f ∈ fields := by rw [hfield]; simp
    obtain ⟨hint, hbool⟩ := typeOk_spec d h (cat, fields) hmem f hf
    have h3 := hkind (cat, fields) hmem f hf
    cases hf2 : f.2 with
    | int m =>
      obtain ⟨n, hval, -, -⟩ := hint m hf2
      obtain ⟨c, hc2, -⟩ := valueAt_some_obj d cat f.1 _ hval
      exact ⟨c, hc2⟩
    | bool b0 =>
      obtain ⟨b, hval⟩ := hbool b0 hf2
      obtain ⟨c, hc2, -⟩ := valueAt_some_obj d cat f.1 _ hval
      exact ⟨c, hc2⟩
    | str s => rw [hf2] at h3; simp at h3
    | null => rw [hf2] at h3; simp at h3
    | arr l => rw [hf2] at h3; simp at h3
    | obj o => rw [hf2] at h3; simp at h3

/-- Every table of a registry shape belongs to a DefaultsTable category and
each of its fields to a default of the matching kind. -/
def shapeFieldsRecognized (shape : List (String × Option (List (String × Bool)))) : Bool :=
  shape.all (fun p =>
    match p.2 with
    | none => true
    | some sh =>
      match dget FALLBACK_DEFAULTS p.1 with
      | none => false
      | some fields => sh.all (fun q =>
          match dget fields q.1 with
          | none => false
          | some dv => isIntDefault dv == q.2))

theorem shapeFieldsRecognized_init : shapeFieldsRecognized (wShape initWidgets) = true := by
  decide

theorem shapeFieldsRecognized_spec (w : Widgets)
    (h : shapeFieldsRecognized (wShape w) = true) (ne : String × WEntry) (hne : ne ∈ w)
    (fs : List (String × Widget)) (ht : ne.2 = WEntry.table fs) :
    ∃ fields, dget FALLBACK_DEFAULTS ne.1 = some fields ∧
      ∀ f ∈ fs, ∃ dv, dget fields f.1 = some dv ∧ isIntDefault dv = isLineWidget f.2 := by
  unfold shapeFieldsRecognized at h
  have hmem : (ne.1, entryShape ne.2) ∈ wShape w :=
    List.mem_map.mpr ⟨ne, hne, rfl⟩
  have h2 := List.all_eq_true.mp h _ hmem
  rw [ht] at h2
  have h3 : (match dget FALLBACK_DEFAULTS ne.1 with
    | none => false
    | some fields => (fs.map (fun f => (f.1, isLineWidget f.2))).all (fun q =>
        match dget fields q.1 with
        | none => false
        | some dv => isIntDefault dv == q.2)) = true := h2
  cases hc : dget FALLBACK_DEFAULTS ne.1 with
  | none => rw [hc] at h3; simp at h3
  | some fields =>
    rw [hc] at h3
    refine ⟨fields, rfl, ?_⟩
    intro f hf
    have hq : ((f.1, isLineWidget f.2) : String × Bool) ∈
        fs.map (fun f => (f.1, isLineWidget f.2)) :=
      List.mem_map.mpr ⟨f, hf, rfl⟩
    have h4 := List.all_eq_true.mp h3 _ hq
    cases hd : dget fields f.1 with
    | none => rw [hd] at h4; simp at h4
    | some dv =>
      rw [hd] at h4
      refine ⟨dv, rfl, ?_⟩
      simpa using h4

/-- Every recognized field is backed by an input widget of the matching
kind. -/
theorem widgetKindAt_init : ∀ p ∈ FALLBACK_DEFAULTS, ∀ f ∈ p.2,
    widgetKindAt initWidgets p.1 f.1 = some (isIntDefault f.2) := by
  decide

/-! ### The document values written back by a populated registry -/

theorem populateResult_fst (cfg : Dict) (ne : String × WEntry) :
    ((match ne.2, dget cfg ne.1 with
      | WEntry.table fs, some (.obj c) => (ne.1, WEntry.table (populateTable c fs))
      | _, _ => ne) : String × WEntry).1 = ne.1 := by
  obtain ⟨n, e⟩ := ne
  cases e with
  | single =>
    cases dget cfg n with
    | none => rfl
    | some v => cases v <;> rfl
  | table fs =>
    cases dget cfg n with
    | none => rfl
    | some v => cases v <;> rfl

theorem dget_populateResult (cfg : Dict) (w : Widgets) (cat : String) :
    dget (populateResult cfg w) cat =
      (dget w cat).map (fun e =>
        (match (e : WEntry), dget cfg cat with
         | WEntry.table fs, some (.obj c) => ((cat, WEntry.table (populateTable c fs)) : String × WEntry)
         | _, _ => (cat, e)).2) := by
  unfold populateResult
  exact dget_map_fst_preserving _ (fun ne => populateResult_fst cfg ne) w cat

theorem dget_populateResult_table (cfg : Dict) (w : Widgets) (cat : String)
    (fs : List (String × Widget)) (c : Dict)
    (hw : dget w cat = some (.table fs)) (hc : dget cfg cat = some (.obj c)) :
    dget (populateResult cfg w) cat = some (.table (populateTable c fs)) := by
  rw [dget_populateResult, hw]
  simp [hc]

theorem populateTable_fst (c : Dict) (kv : String × Widget) :
    ((match dget c kv.1 with
      | some JVal.null => kv
      | some v => (kv.1, setWidgetFrom kv.2 v)
      | none => kv) : String × Widget).1 = kv.1 := by
  cases dget c kv.1 with
  | none => rfl
  | some v => cases v <;> rfl

theorem dget_populateTable_val (c : Dict) (fs : List (String × Widget)) (k : String)
    (wd : Widget) (v : JVal) (hfk : dget fs k = some wd) (hv : dget c k = some v)
    (hnn : v ≠ JVal.null) :
    dget (populateTable c fs) k = some (setWidgetFrom wd v) := by
  unfold populateTable
  rw [dget_map_fst_preserving _ (fun kv => populateTable_fst c kv) fs k, hfk]
  cases v with
  | null => exact absurd rfl hnn
  | int n => simp [hv]
  | bool b => simp [hv]
  | str s => simp [hv]
  | arr l => simp [hv]
  | obj o => simp [hv]

theorem populateTable_map_fst (c : Dict) (fs : List (String × Widget)) :
    (populateTable c fs).map Prod.fst = fs.map Prod.fst := by
  unfold populateTable
  exact map_fst_of_map_fst_preserving _ (fun kv => populateTable_fst c kv) fs

end ConfigEditor

namespace ConfigEditor

theorem defaults_int_or_bool : ∀ p ∈ FALLBACK_DEFAULTS, ∀ f0 ∈ p.2,
    (match f0.2 with
     | JVal.int _ => true
     | JVal.bool _ => true
     | _ => false) = true := by
  decide

theorem valueAt_of_cat (cfg : Dict) (cat k : String) (c : Dict)
    (hc : dget cfg cat = some (.obj c)) : valueAt cfg cat k = dget c k := by
  unfold valueAt
  rw [hc]

/-- Populating the registry from a well-typed document and committing it
back succeeds and restores every recognized field's value. -/
theorem populate_commit_roundtrip (w : Widgets) (cfg : Dict)
    (hwf : WidgetsWf w) (hpok : populateOk cfg w = true) (htype : typeOk cfg = true) :
    ∃ cfg2, commitAll (populateResult cfg w) cfg = (cfg2, none) ∧
      ∀ p ∈ FALLBACK_DEFAULTS, ∀ f ∈ p.2, valueAt cfg2 p.1 f.1 = valueAt cfg p.1 f.1 := by
  have hshape : wShape w = wShape initWidgets := hwf
  have hrec : shapeFieldsRecognized (wShape w) = true := by
    rw [hshape]
    exact shapeFieldsRecognized_init
  have hsuc : (commitAll (populateResult cfg w) cfg).2 = none := by
    apply commitAll_ok
    · intro ne hne hs
      obtain ⟨ne0, hne0, hF⟩ := List.mem_map.mp hne
      obtain ⟨n0, e0⟩ := ne0
      cases e0 with
      | single =>
        have hid : ne = (n0, WEntry.single) := by
          rw [← hF]
        subst hid
        have h2 := (populateOk_spec cfg w hpok (n0, .single) hne0).1 rfl
        show dhas cfg n0 = false
        rw [dhas_eq_isSome]
        rw [show dget cfg (n0, WEntry.single).1 = dget cfg n0 from rfl] at h2
        rw [h2]
        rfl
      | table fs0 =>
        exfalso
        rw [← hF] at hs
        cases hg : dget cfg n0 with
        | none => rw [hg] at hs; exact absurd hs (by simp)
        | some v => rw [hg] at hs; cases v <;> simp at hs
    · intro ne hne fs2 ht
      obtain ⟨ne0, hne0, hF⟩ := List.mem_map.mp hne
      obtain ⟨n0, e0⟩ := ne0
      cases e0 with
      | single =>
        exfalso
        have hid : ne = (n0, WEntry.single) := by
          rw [← hF]
        rw [hid] at ht
        exact absurd ht (by simp)
      | table fs0 =>
        obtain ⟨fields, hfields, hperfield⟩ :=
          shapeFieldsRecognized_spec w hrec (n0, .table fs0) hne0 fs0 rfl
        rw [show ((n0, WEntry.table fs0) : String × WEntry).1 = n0 from rfl] at hfields
        obtain ⟨c, hc⟩ := typeOk_cat_obj cfg htype n0 fields hfields
        have hFval : ne = (n0, WEntry.table (populateTable c fs0)) := by
          rw [← hF]
          simp [hc]
        have hname : ne.1 = n0 := by rw [hFval]
        have hfs2 : fs2 = populateTable c fs0 := by
          rw [hFval] at ht
          have h2 : WEntry.table (populateTable c fs0) = WEntry.table fs2 := ht
          exact (WEntry.table.inj h2).symm
        rw [hname]
        constructor
        · intro hd
          exact ⟨c, hc⟩
        · intro f hf
          rw [hfs2] at hf
          obtain ⟨f0, hf0, hT⟩ := List.mem_map.mp hf
          obtain ⟨dv, hdv, hkind⟩ := hperfield f0 hf0
          have hmemp : (n0, fields) ∈ FALLBACK_DEFAULTS := dget_mem _ _ _ hfields
          have hmemf : (f0.1, dv) ∈ fields := dget_mem _ _ _ hdv
          have hvc : valueAt cfg n0 f0.1 = dget c f0.1 := valueAt_of_cat cfg n0 f0.1 c hc
          have hib := defaults_int_or_bool (n0, fields) hmemp (f0.1, dv) hmemf
          obtain ⟨hint, hbool⟩ := typeOk_spec cfg htype (n0, fields) hmemp (f0.1, dv) hmemf
          cases hdvv : dv with
          | int m =>
            obtain ⟨n, hval, -, -⟩ := hint m (by rw [show ((f0.1, dv) : String × JVal).2 = dv from rfl, hdvv])
            rw [show ((n0, fields) : String × Dict).1 = n0 from rfl,
              show ((f0.1, dv) : String × JVal).1 = f0.1 from rfl] at hval
            rw [hvc] at hval
            have hline : isLineWidget f0.2 = true := by
              rw [← hkind, hdvv]
              rfl
            obtain ⟨f01, f02⟩ := f0
            cases hw0 : f02 with
            | check bc en => rw [hw0] at hline; simp [isLineWidget] at hline
            | line t en =>
              have hfeq : f = (f01, Widget.line (pyStr (.int n)) en) := by
                rw [← hT]
                show (match dget c (f01, f02).1 with
                  | some JVal.null => (f01, f02)
                  | some v => ((f01, f02).1, setWidgetFrom (f01, f02).2 v)
                  | none => (f01, f02)) = (f01, Widget.line (pyStr (.int n)) en)
                rw [show ((f01, f02) : String × Widget).1 = f01 from rfl] at *
                rw [hval]
                rw [hw0]
                rfl
              refine ⟨.int n, ?_⟩
              rw [hfeq]
              exact commitValue_line_int n en
          | bool b0 =>
            obtain ⟨b, hval⟩ := hbool b0 (by rw [show ((f0.1, dv) : String × JVal).2 = dv from rfl, hdvv])
            rw [show ((n0, fields) : String × Dict).1 = n0 from rfl,
              show ((f0.1, dv) : String × JVal).1 = f0.1 from rfl] at hval
            rw [hvc] at hval
            have hline : isLineWidget f0.2 = false := by
              rw [← hkind, hdvv]
              rfl
            obtain ⟨f01, f02⟩ := f0
            cases hw0 : f02 with
            | line t en => rw [hw0] at hline; simp [isLineWidget] at hline
            | check bc en =>
              have hfeq : f = (f01, Widget.check (pyBool (.bool b)) en) := by
                rw [← hT]
                show (match dget c (f01, f02).1 with
                  | some JVal.null => (f01, f02)
                  | some v => ((f01, f02).1, setWidgetFrom (f01, f02).2 v)
                  | none => (f01, f02)) = (f01, Widget.check (pyBool (.bool b)) en)
                rw [show ((f01, f02) : String × Widget).1 = f01 from rfl] at *
                rw [hval]
                rw [hw0]
                rfl
              refine ⟨.bool b, ?_⟩
              rw [hfeq]
              exact commitValue_check_bool b en
          | str s => rw [hdvv] at hib; simp at hib
          | null => rw [hdvv] at hib; simp at hib
          | arr l => rw [hdvv] at hib; simp at hib
          | obj o => rw [hdvv] at hib; simp at hib
  cases hca : commitAll (populateResult cfg w) cfg with
  | mk cfg2 er =>
    rw [hca] at hsuc
    simp only at hsuc
    subst hsuc
    refine ⟨cfg2, rfl, ?_⟩
    intro p hp f hf
    have hnd : (FALLBACK_DEFAULTS.map Prod.fst).Nodup := by decide
    have hfieldsnd : ∀ q ∈ FALLBACK_DEFAULTS, ((q.2).map Prod.fst).Nodup := by decide
    have hdefget : dget FALLBACK_DEFAULTS p.1 = some p.2 := dget_of_mem_nodup _ p hnd hp
    have hki : widgetKindAt w p.1 f.1 = some (isIntDefault f.2) := by
      rw [widgetKindAt_of_shape w initWidgets hshape]
      exact widgetKindAt_init p hp f hf
    obtain ⟨fs0, hw0, wd0, hwd0, hkind⟩ :
        ∃ fs0, dget w p.1 = some (.table fs0) ∧
          ∃ wd0, dget fs0 f.1 = some wd0 ∧ isLineWidget wd0 = isIntDefault f.2 := by
      unfold widgetKindAt at hki
      cases hg : dget w p.1 with
      | none =>
        rw [hg] at hki
        have hki2 : (none : Option Bool) = some (isIntDefault f.2) := hki
        exact absurd hki2 (by simp)
      | some e =>
        rw [hg] at hki
        cases e with
        | single =>
          have hki2 : (none : Option Bool) = some (isIntDefault f.2) := hki
          exact absurd hki2 (by simp)
        | table fs0 =>
          have hki2 : Option.map isLineWidget (dget fs0 f.1) = some (isIntDefault f.2) := hki
          cases hg2 : dget fs0 f.1 with
          | none =>
            rw [hg2] at hki2
            exact absurd hki2 (by simp)
          | some wd0 =>
            rw [hg2] at hki2
            refine ⟨fs0, rfl, wd0, hg2, ?_⟩
            simpa using hki2
    have hib := defaults_int_or_bool p hp f hf
    have hndpr : ((populateResult cfg w).map Prod.fst).Nodup := by
      unfold populateResult
      rw [map_fst_of_map_fst_preserving _ (fun ne => populateResult_fst cfg ne) w]
      exact wf_names_nodup w hwf
    have hndfs0 : (fs0.map Prod.fst).Nodup := wf_table_keys_nodup w hwf p.1 fs0 hw0
    obtain ⟨hint, hbool⟩ := typeOk_spec cfg htype p hp f hf
    cases hdvv : f.2 with
    | int m =>
      obtain ⟨n, hval, -, -⟩ := hint m hdvv
      obtain ⟨c, hc, hcv⟩ := valueAt_some_obj cfg p.1 f.1 _ hval
      have hprt := dget_populateResult_table cfg w p.1 fs0 c hw0 hc
      have hptv := dget_populateTable_val c fs0 f.1 wd0 (.int n) hwd0 hcv (by simp)
      have hndpt : ((populateTable c fs0).map Prod.fst).Nodup := by
        rw [populateTable_map_fst]
        exact hndfs0
      have hdh : dhas cfg p.1 = true := by rw [dhas_eq_isSome, hc]; rfl
      obtain ⟨v2, hcv2, hval2⟩ := commitAll_success_val (populateResult cfg w) cfg cfg2
        p.1 f.1 (populateTable c fs0) (setWidgetFrom wd0 (.int n))
        hndpr hprt hndpt hdh hptv hca
      have hlinek : isLineWidget wd0 = true := by rw [hkind, hdvv]; rfl
      cases hwd0v : wd0 with
      | check bc en => rw [hwd0v] at hlinek; simp [isLineWidget] at hlinek
      | line t en =>
        rw [hwd0v] at hcv2
        rw [show setWidgetFrom (Widget.line t en) (.int n) = .line (pyStr (.int n)) en from rfl] at hcv2
        rw [commitValue_line_int n en] at hcv2
        have hv2 : JVal.int n = v2 := Except.ok.inj hcv2
        rw [hval2, ← hv2, hval]
    | bool b0 =>
      obtain ⟨b, hval⟩ := hbool b0 hdvv
      obtain ⟨c, hc, hcv⟩ := valueAt_some_obj cfg p.1 f.1 _ hval
      have hprt := dget_populateResult_table cfg w p.1 fs0 c hw0 hc
      have hptv := dget_populateTable_val c fs0 f.1 wd0 (.bool b) hwd0 hcv (by simp)
      have hndpt : ((populateTable c fs0).map Prod.fst).Nodup := by
        rw [populateTable_map_fst]
        exact hndfs0
      have hdh : dhas cfg p.1 = true := by rw [dhas_eq_isSome, hc]; rfl
      obtain ⟨v2, hcv2, hval2⟩ := commitAll_success_val (populateResult cfg w) cfg cfg2
        p.1 f.1 (populateTable c fs0) (setWidgetFrom wd0 (.bool b))
        hndpr hprt hndpt hdh hptv hca
      have hlinek : isLineWidget wd0 = false := by rw [hkind, hdvv]; rfl
      cases hwd0v : wd0 with
      | line t en => rw [hwd0v] at hlinek; simp [isLineWidget] at hlinek
      | check bc en =>
        rw [hwd0v] at hcv2
        rw [show setWidgetFrom (Widget.check bc en) (.bool b) = .check (pyBool (.bool b)) en from rfl] at hcv2
        rw [commitValue_check_bool b en] at hcv2
        have hv2 : JVal.bool b = v2 := Except.ok.inj hcv2
        rw [hval2, ← hv2, hval]
    | str s => rw [hdvv] at hib; simp at hib
    | null => rw [hdvv] at hib; simp at hib
    | arr l => rw [hdvv] at hib; simp at hib
    | obj o => rw [hdvv] at hib; simp at hib

end ConfigEditor

namespace ConfigEditor

/-! ### Shared helpers for the claim theorems -/

theorem defaults_names_nodup : (FALLBACK_DEFAULTS.map Prod.fst).Nodup := by
  decide

theorem defaults_fields_nodup : ∀ q ∈ FALLBACK_DEFAULTS, ((q.2).map Prod.fst).Nodup := by
  decide

theorem valueAt_eq_catContents (d : Dict) (cat k : String) :
    valueAt d cat k = dget (catContents d cat) k := by
  unfold valueAt catContents
  cases hg : dget d cat with
  | none => rfl
  | some v => cases v <;> rfl

theorem fullyPopulated_spec (d : Dict) (h : fullyPopulated d = true) :
    ∀ p ∈ FALLBACK_DEFAULTS, ∃ c, dget d p.1 = some (.obj c) ∧
      ∀ f ∈ p.2, dhas c f.1 = true := by
  intro p hp
  unfold fullyPopulated at h
  rw [List.all_eq_true] at h
  have h2 := h p hp
  cases hg : dget d p.1 with
  | none => rw [hg] at h2; simp at h2
  | some v =>
    rw [hg] at h2
    cases v with
    | obj c =>
      refine ⟨c, rfl, ?_⟩
      intro f hf
      have h3 : p.2.all (fun f => dhas c f.1) = true := h2
      exact List.all_eq_true.mp h3 f hf
    | int n => simp at h2
    | bool b => simp at h2
    | str s => simp at h2
    | null => simp at h2
    | arr l => simp at h2

theorem init_table_names_recognized : ∀ p ∈ wShape initWidgets,
    (match p.2 with
     | some _ => dhas FALLBACK_DEFAULTS p.1
     | none => true) = true := by
  decide

theorem table_name_recognized (w : Widgets) (hwf : WidgetsWf w) (name : String)
    (fs : List (String × Widget)) (h : dget w name = some (.table fs)) :
    dhas FALLBACK_DEFAULTS name = true := by
  obtain ⟨fs2, hg2, -⟩ := table_shape_of_table w initWidgets hwf name fs h
  have hmem : ((name, WEntry.table fs2) : String × WEntry) ∈ initWidgets :=
    dget_mem initWidgets name _ hg2
  have hmem2 : (name, entryShape (WEntry.table fs2)) ∈ wShape initWidgets :=
    List.mem_map.mpr ⟨(name, .table fs2), hmem, rfl⟩
  have h4 := init_table_names_recognized _ hmem2
  simpa [entryShape] using h4

theorem populateOk_of_shape (cfg : Dict) (w : Widgets) (hwf : WidgetsWf w)
    (h : populateOk cfg initWidgets = true) : populateOk cfg w = true := by
  apply populateOk_of_conditions
  intro ne hne
  have hget : dget w ne.1 = some ne.2 := dget_of_mem_nodup w ne (wf_names_nodup w hwf) hne
  constructor
  · intro hs
    rw [hs] at hget
    have hgi : dget initWidgets ne.1 = some .single :=
      single_of_single_shape w initWidgets hwf ne.1 hget
    have hmem : ((ne.1, WEntry.single) : String × WEntry) ∈ initWidgets :=
      dget_mem initWidgets ne.1 _ hgi
    have h2 := (populateOk_spec cfg initWidgets h (ne.1, .single) hmem).1 rfl
    rw [dhas_eq_isSome]
    rw [show dget cfg ((ne.1, WEntry.single) : String × WEntry).1 = dget cfg ne.1 from rfl] at h2
    rw [h2]
    rfl
  · intro fs ht
    rw [ht] at hget
    obtain ⟨fs2, hgi, -⟩ := table_shape_of_table w initWidgets hwf ne.1 fs hget
    have hmem : ((ne.1, WEntry.table fs2) : String × WEntry) ∈ initWidgets :=
      dget_mem initWidgets ne.1 _ hgi
    have h2 := (populateOk_spec cfg initWidgets h (ne.1, .table fs2) hmem).2 fs2 rfl
    rw [show dget cfg ((ne.1, WEntry.table fs2) : String × WEntry).1 = dget cfg ne.1 from rfl] at h2
    cases h2 with
    | inl hn =>
      left
      rw [dhas_eq_isSome, hn]
      rfl
    | inr hobj => exact Or.inr hobj

theorem typeOk_of_agree (d1 d2 : Dict)
    (hagree : ∀ p ∈ FALLBACK_DEFAULTS, ∀ f ∈ p.2, valueAt d2 p.1 f.1 = valueAt d1 p.1 f.1)
    (h : typeOk d1 = true) : typeOk d2 = true := by
  unfold typeOk at h ⊢
  rw [List.all_eq_true] at h ⊢
  intro p hp
  have h1 := h p hp
  rw [List.all_eq_true] at h1 ⊢
  intro f hf
  have h2 := h1 f hf
  simpa only [hagree p hp f hf] using h2

theorem dhas_defaults_of_mem (p : String × Dict) (hp : p ∈ FALLBACK_DEFAULTS) :
    dhas FALLBACK_DEFAULTS p.1 = true := by
  rw [dhas_eq_isSome, dget_of_mem_nodup _ p defaults_names_nodup hp]
  rfl

end ConfigEditor

namespace ConfigEditor

/-! ### Composition helpers for load_config and reset_to_defaults -/

theorem load_config_eq_ok (fs : FileState) (w : Widgets) (cfg : Dict) (w2 : Widgets)
    (h1 : applyDefaults (initialDoc fs) = .ok cfg)
    (h2 : populate_ui cfg w = .ok w2) :
    load_config fs w = .ok (cfg, w2) := by
  unfold load_config
  rw [h1]
  simp only [h2]

theorem populate_ui_fresh_ok (w : Widgets) (hwf : WidgetsWf w) :
    populate_ui freshDefaults w =
      .ok (apply_feature_dependencies (populateResult freshDefaults w)) := by
  unfold populate_ui
  rw [populateEntries_eq_ok freshDefaults w (populateOk_of_shape freshDefaults w hwf (by decide))]

theorem reset_confirmed_eq (cfg : Dict) (w w2 : Widgets)
    (h : populate_ui freshDefaults w = .ok w2) :
    reset_to_defaults true cfg w = .ok (freshDefaults, w2) := by
  unfold reset_to_defaults
  rw [h]
  rfl

/-! ### The claims -/

/-- C5: for every prior document state, a confirmed reset replaces the
whole document with a fresh copy of the defaults table: the result is
deep-equal to FALLBACK_DEFAULTS (each category mapped to its default
fields), independent of the prior document, with no partial reset. -/
theorem C5_reset_yields_defaults (cfg : Dict) (w : Widgets) (hwf : WidgetsWf w) :
    ∃ w2, reset_to_defaults true cfg w =
      .ok (FALLBACK_DEFAULTS.map (fun kv => (kv.1, JVal.obj kv.2)), w2) :=
  ⟨apply_feature_dependencies (populateResult freshDefaults w),
    reset_confirmed_eq cfg w _ (populate_ui_fresh_ok w hwf)⟩

/-- C5 witness: the reset theorem applied at the initial widget registry
and the empty prior document. -/
theorem C5_reset_yields_defaults_witness :
    WidgetsWf initWidgets ∧
    ∃ w2, reset_to_defaults true [] initWidgets =
      .ok (FALLBACK_DEFAULTS.map (fun kv => (kv.1, JVal.obj kv.2)), w2) :=
  ⟨by decide, C5_reset_yields_defaults [] initWidgets (by decide)⟩

/-- C3 counterexample: a file that parses to a non-object JSON value is
neither recovered from nor loaded: load_config raises an uncaught
TypeError, surfacing an error to the caller. -/
theorem C3_counterexample_nonobject_file :
    load_config (.parsed (.int 5)) initWidgets = .error .typeError := rfl

/-- C3 amended: when the file is missing or fails to parse, load indeed
recovers silently with a fresh copy of the defaults table; the no-error
guarantee holds only for those two file states, not for arbitrary parsed
content. -/
theorem C3_load_missing_recovers (fs : FileState) (w : Widgets)
    (hwf : WidgetsWf w) (hfs : fs = .missing ∨ fs = .unparsable) :
    ∃ w2, load_config fs w = .ok (freshDefaults, w2) := by
  have hinit : initialDoc fs = .obj freshDefaults := by
    cases hfs with
    | inl h => rw [h]; rfl
    | inr h => rw [h]; rfl
  have happ : applyDefaults (initialDoc fs) = .ok freshDefaults := by
    rw [hinit]
    exact applyDefaults_id_of_full freshDefaults (by decide)
  exact ⟨apply_feature_dependencies (populateResult freshDefaults w),
    load_config_eq_ok fs w freshDefaults _ happ (populate_ui_fresh_ok w hwf)⟩

/-- C3 witness: the amended load theorem applied to a missing file and the
initial widget registry. -/
theorem C3_load_missing_recovers_witness :
    WidgetsWf initWidgets ∧
    ∃ w2, load_config .missing initWidgets = .ok (freshDefaults, w2) :=
  ⟨by decide, C3_load_missing_recovers .missing initWidgets (by decide) (Or.inl rfl)⟩

/-- C1: whenever load_config succeeds on a file whose content is the JSON
object d, every category of the defaults table is present in the result,
and every default field holds the file's value when the file had one and
the default value otherwise (defaulting is additive only). -/
theorem C1_load_defaulting_additive (fs : FileState) (w : Widgets) (cfg : Dict)
    (w2 : Widgets) (d : Dict)
    (hd : initialDoc fs = .obj d)
    (h : load_config fs w = .ok (cfg, w2)) :
    ∀ p ∈ FALLBACK_DEFAULTS, ∀ f ∈ p.2,
      dhas cfg p.1 = true ∧
      valueAt cfg p.1 f.1 = some ((valueAt d p.1 f.1).getD f.2) := by
  have happ : applyDefaultsFrom FALLBACK_DEFAULTS d = .ok cfg := by
    have h1 := (load_config_ok_inv fs w cfg w2 h).1
    rw [hd] at h1
    exact h1
  intro p hp f hf
  have hLget : dget FALLBACK_DEFAULTS p.1 = some p.2 :=
    dget_of_mem_nodup _ p defaults_names_nodup hp
  have hres := applyDefaultsFrom_result FALLBACK_DEFAULTS d cfg
    defaults_names_nodup happ p.1 p.2 hLget
  constructor
  · rw [dhas_eq_isSome, hres]
    rfl
  · rw [valueAt_of_cat cfg p.1 f.1 _ hres]
    have hfget : dget p.2 f.1 = some f.2 :=
      dget_of_mem_nodup _ f (defaults_fields_nodup p hp) hf
    rw [setdefaultAll_dget_mem p.2 (catContents d p.1) f.1 f.2 hfget]
    rw [valueAt_eq_catContents]

/-- The spec's worked example of a partial file: only money.starting_money
is present. -/
def c1File : JVal := .obj [("money", .obj [("starting_money", .int 500)])]

/-- The document load_config builds from c1File: the present value is kept
and every other recognized field is default-filled, missing categories
being appended in defaults order. -/
def c1Doc : Dict :=
  [("money",
     .obj [("starting_money", .int 500), ("money_per_minute_interval_ms", .int 60000),
       ("money_per_minute_amount", .int 10), ("cool_message_interval_ms", .int 30000)]),
   ("features",
     .obj [("roleplay_enabled", .bool true), ("money_per_minute_enabled", .bool true),
       ("cool_message_enabled", .bool true), ("speeding_bonus_enabled", .bool true),
       ("zigzag_bonus_enabled", .bool true), ("police_features_enabled", .bool true)]),
   ("general", .obj [("autosave_interval_ms", .int 120000)]),
   ("civilian",
     .obj [("speeding_limit_kmh", .int 100), ("speeding_bonus_duration_ms", .int 60000),
       ("speeding_cooldown_ms", .int 200000), ("speeding_bonus_per_second", .int 1),
       ("zigzag_bonus_duration_ms", .int 120000), ("zigzag_cooldown_ms", .int 200000),
       ("zigzag_final_bonus_amount", .int 50), ("zigzag_prorated_bonus", .int 5),
       ("min_speed_kmh_for_zigzag", .int 10), ("zigzag_min_turns", .int 5),
       ("wanted_fail_penalty", .int 50)]),
   ("police",
     .obj [("police_proximity_range_m", .int 150), ("busted_range_m", .int 20),
       ("busted_stop_time_ms", .int 7000), ("busted_speed_limit_kmh", .int 5),
       ("police_bonus_per_second", .int 2), ("bust_bonus_amount", .int 100)])]

/-- C1 witness: the defaulting theorem applied to the spec's partial-file
example, whose load keeps starting_money = 500 and fills the rest. -/
theorem C1_load_defaulting_additive_witness :
    load_config (.parsed c1File) initWidgets =
      .ok (c1Doc, apply_feature_dependencies (populateResult c1Doc initWidgets)) ∧
    ∀ p ∈ FALLBACK_DEFAULTS, ∀ f ∈ p.2,
      dhas c1Doc p.1 = true ∧
      valueAt c1Doc p.1 f.1 =
        some ((valueAt [("money", .obj [("starting_money", .int 500)])] p.1 f.1).getD f.2) :=
  ⟨rfl, C1_load_defaulting_additive (.parsed c1File) initWidgets c1Doc _
    [("money", .obj [("starting_money", .int 500)])] rfl rfl⟩

end ConfigEditor

namespace ConfigEditor

/-- The initial registry with the general.autosave_interval_ms line edit
holding the non-numeric text abc. -/
def c2Widgets : Widgets :=
  dset initWidgets "general" (.table [("autosave_interval_ms", .line "abc" true)])

/-- C2 counterexample: committing with the non-numeric text abc in
general.autosave_interval_ms raises ValueError and writes nothing to the
file, but the in-memory document is NOT left unmodified: the features
checkboxes, committed before the failing field, have already overwritten
features.roleplay_enabled. -/
theorem C2_counterexample_partial_mutation :
    (save_config c2Widgets freshDefaults).2 = none ∧
    valueAt freshDefaults "features" "roleplay_enabled" = some (.bool true) ∧
    valueAt (save_config c2Widgets freshDefaults).1 "features" "roleplay_enabled" =
      some (.bool false) :=
  ⟨rfl, rfl, rfl⟩

/-- C2 amended: when the commit loop fails (an InputError on a text
field), nothing is persisted to the file, and every (category, field) NOT
backed by an input widget is unchanged; fields backed by widgets committed
before the failure may already have been overwritten in memory. -/
theorem C2_input_error_not_persisted (w : Widgets) (cfg cfg2 : Dict) (e : PyErr)
    (hnd : (w.map Prod.fst).Nodup)
    (h : commitAll w cfg = (cfg2, some e)) :
    save_config w cfg = (cfg2, none) ∧
    ∀ cat k, widgetBacked w cat k = false → valueAt cfg2 cat k = valueAt cfg cat k := by
  refine ⟨save_config_of_commit_err w cfg cfg2 e h, ?_⟩
  intro cat k hb
  have h2 := commitAll_valueAt_frame w cfg cat k hnd hb
  rw [h] at h2
  exact h2

/-- C2 witness: the amended theorem applied to the abc registry over the
default document. -/
theorem C2_input_error_not_persisted_witness :
    commitAll c2Widgets freshDefaults =
      ((commitAll c2Widgets freshDefaults).1, some .valueError) ∧
    (save_config c2Widgets freshDefaults = ((commitAll c2Widgets freshDefaults).1, none) ∧
     ∀ cat k, widgetBacked c2Widgets cat k = false →
       valueAt (commitAll c2Widgets freshDefaults).1 cat k = valueAt freshDefaults cat k) :=
  ⟨rfl, C2_input_error_not_persisted c2Widgets freshDefaults _ .valueError (by decide) rfl⟩

/-- C6: on a successful commit, an integer field backed by a line edit
with empty (or all-whitespace) text is assigned 0, and one with parsable
text is assigned the integer parsed from the stripped text. -/
theorem C6_commit_text_semantics (w : Widgets) (cfg cfg2 : Dict)
    (cat k : String) (fs : List (String × Widget)) (t : String) (en : Bool)
    (hwf : WidgetsWf w)
    (hw : dget w cat = some (.table fs))
    (hf : dget fs k = some (.line t en))
    (hcat : dhas cfg cat = true)
    (h : commitAll w cfg = (cfg2, none)) :
    (pyStrip t = "" → valueAt cfg2 cat k = some (.int 0)) ∧
    ∀ n : Int, pyStrip t ≠ "" → pyInt (pyStrip t) = .ok n →
      valueAt cfg2 cat k = some (.int n) := by
  obtain ⟨v, hcv, hval⟩ := commitAll_success_val w cfg cfg2 cat k fs (.line t en)
    (wf_names_nodup w hwf) hw (wf_table_keys_nodup w hwf cat fs hw) hcat hf h
  rw [commitValue_line t en] at hcv
  constructor
  · intro he
    rw [if_pos he] at hcv
    have hv : JVal.int 0 = v := Except.ok.inj hcv
    rw [hval, ← hv]
  · intro n hne hpi
    rw [if_neg hne, hpi] at hcv
    have hv : JVal.int n = v := Except.ok.inj hcv
    rw [hval, ← hv]

/-- C6 witness: committing the initial registry (all texts empty) over the
default document writes 0 into general.autosave_interval_ms. -/
theorem C6_commit_text_semantics_witness :
    commitAll initWidgets freshDefaults = ((commitAll initWidgets freshDefaults).1, none) ∧
    ((pyStrip "" = "" →
      valueAt (commitAll initWidgets freshDefaults).1 "general" "autosave_interval_ms" =
        some (.int 0)) ∧
     ∀ n : Int, pyStrip "" ≠ "" → pyInt (pyStrip "") = .ok n →
       valueAt (commitAll initWidgets freshDefaults).1 "general" "autosave_interval_ms" =
         some (.int n)) :=
  ⟨rfl, C6_commit_text_semantics initWidgets freshDefaults _ "general" "autosave_interval_ms"
    [("autosave_interval_ms", .line "" true)] "" true (by decide) rfl rfl (by decide) rfl⟩

end ConfigEditor

namespace ConfigEditor

theorem save_config_fst (w : Widgets) (cfg : Dict) :
    (save_config w cfg).1 = (commitAll w cfg).1 := by
  unfold save_config
  cases hc : commitAll w cfg with
  | mk cfg2 er => cases er <;> rfl

/-- C4: a document written by a successful save (hence fully populated in
the usual run) loads back identical: the defaulting pass changes nothing
on a fully-populated document and populate_ui succeeds, so load returns
exactly the saved document. -/
theorem C4_save_load_roundtrip (w : Widgets) (cfg cfg2 out : Dict)
    (hwf : WidgetsWf w)
    (hsave : save_config w cfg = (cfg2, some out))
    (hfull : fullyPopulated out = true) :
    ∃ w3, load_config (.parsed (.obj out)) w = .ok (out, w3) := by
  obtain ⟨hcommit, hout⟩ := save_config_ok_inv w cfg cfg2 out hsave
  subst hout
  have happ : applyDefaults (.obj out) = .ok out := applyDefaults_id_of_full out hfull
  have hpok : populateOk out w = true := by
    apply populateOk_of_conditions
    intro ne hne
    have hget : dget w ne.1 = some ne.2 := dget_of_mem_nodup w ne (wf_names_nodup w hwf) hne
    constructor
    · intro hs
      have h1 := commitAll_success_no_single_hit w cfg out hcommit ne hne hs
      have h2 := commitAll_dhas w cfg ne.1
      rw [hcommit] at h2
      have h3 : dhas out ne.1 = dhas cfg ne.1 := h2
      rw [h3, h1]
    · intro fs ht
      right
      rw [ht] at hget
      have hrec : dhas FALLBACK_DEFAULTS ne.1 = true := table_name_recognized w hwf ne.1 fs hget
      obtain ⟨fields, hfields⟩ : ∃ fields, dget FALLBACK_DEFAULTS ne.1 = some fields := by
        rw [dhas_eq_isSome] at hrec
        cases hg : dget FALLBACK_DEFAULTS ne.1 with
        | none => rw [hg] at hrec; simp at hrec
        | some v => exact ⟨v, rfl⟩
      have hmem : (ne.1, fields) ∈ FALLBACK_DEFAULTS := dget_mem _ _ _ hfields
      obtain ⟨c, hc, -⟩ := fullyPopulated_spec out hfull (ne.1, fields) hmem
      exact ⟨c, hc⟩
  have hui : populate_ui out w = .ok (apply_feature_dependencies (populateResult out w)) := by
    unfold populate_ui
    rw [populateEntries_eq_ok out w hpok]
  exact ⟨_, load_config_eq_ok _ w out _ happ hui⟩

/-- C4 witness: saving the initial registry (all texts empty) over the
default document and loading the written file back round-trips. -/
theorem C4_save_load_roundtrip_witness :
    save_config initWidgets freshDefaults =
      ((commitAll initWidgets freshDefaults).1, some ((commitAll initWidgets freshDefaults).1)) ∧
    fullyPopulated ((commitAll initWidgets freshDefaults).1) = true ∧
    ∃ w3, load_config (.parsed (.obj ((commitAll initWidgets freshDefaults).1))) initWidgets =
      .ok ((commitAll initWidgets freshDefaults).1, w3) :=
  ⟨rfl, by decide,
    C4_save_load_roundtrip initWidgets freshDefaults _ _ (by decide) rfl (by decide)⟩

/-- C7 counterexample: an extra top-level key whose name collides with a
plain (non-table) widget of the registry is not preserved through load:
populate_ui calls .items() on that widget and load_config raises an
uncaught AttributeError. -/
theorem C7_counterexample_colliding_name :
    load_config (.parsed (.obj [("label_roleplay_enabled", .int 5)])) initWidgets =
      .error .attributeError := rfl

/-- C7 amended: when load succeeds, an extra category absent from both
the defaults table and the widget registry is preserved verbatim through
load and through the save commit, and an extra field value is preserved
through load and, when not backed by an input widget, through save; but
extra keys colliding with registry names can crash load instead. -/
theorem C7_unknown_entries_preserved (fs : FileState) (d : Dict) (w : Widgets)
    (cfg : Dict) (w2 : Widgets) (cat k : String)
    (hnd : (w.map Prod.fst).Nodup)
    (hd : initialDoc fs = .obj d)
    (hload : load_config fs w = .ok (cfg, w2)) :
    (dhas FALLBACK_DEFAULTS cat = false → dhas w cat = false →
      dget cfg cat = dget d cat ∧ dget (save_config w cfg).1 cat = dget d cat) ∧
    (∀ v, valueAt d cat k = some v →
      valueAt cfg cat k = some v ∧
      (widgetBacked w cat k = false → valueAt (save_config w cfg).1 cat k = some v)) := by
  have happ : applyDefaultsFrom FALLBACK_DEFAULTS d = .ok cfg := by
    have h1 := (load_config_ok_inv fs w cfg w2 hload).1
    rw [hd] at h1
    exact h1
  constructor
  · intro hdef hwcat
    have hLnone : dget FALLBACK_DEFAULTS cat = none := dhas_false_dget _ _ hdef
    have hwnone : dget w cat = none := dhas_false_dget _ _ hwcat
    have hl : dget cfg cat = dget d cat :=
      applyDefaultsFrom_frame FALLBACK_DEFAULTS d cfg happ cat hLnone
    refine ⟨hl, ?_⟩
    rw [save_config_fst, commitAll_dget_frame w cfg cat hwnone, hl]
  · intro v hv
    have hl : valueAt cfg cat k = some v :=
      applyDefaultsFrom_preserve_valueAt FALLBACK_DEFAULTS d cfg happ cat k v hv
    refine ⟨hl, ?_⟩
    intro hb
    rw [save_config_fst, commitAll_valueAt_frame w cfg cat k hnd hb, hl]

/-- The parsed content of a file with one unrecognized category. -/
def c7File : JVal := .obj [("custom", .obj [("x", .int 7)])]

/-- C7 witness: the amended theorem applied to a file holding the
unrecognized category custom with field x = 7. -/
theorem C7_unknown_entries_preserved_witness :
    load_config (.parsed c7File) initWidgets =
      .ok (("custom", JVal.obj [("x", .int 7)]) :: freshDefaults,
        apply_feature_dependencies
          (populateResult (("custom", JVal.obj [("x", .int 7)]) :: freshDefaults) initWidgets)) ∧
    ((dhas FALLBACK_DEFAULTS "custom" = false → dhas initWidgets "custom" = false →
      dget (("custom", JVal.obj [("x", .int 7)]) :: freshDefaults) "custom" =
        dget [("custom", JVal.obj [("x", .int 7)])] "custom" ∧
      dget (save_config initWidgets
          (("custom", JVal.obj [("x", .int 7)]) :: freshDefaults)).1 "custom" =
        dget [("custom", JVal.obj [("x", .int 7)])] "custom") ∧
     (∀ v, valueAt [("custom", JVal.obj [("x", .int 7)])] "custom" "x" = some v →
       valueAt (("custom", JVal.obj [("x", .int 7)]) :: freshDefaults) "custom" "x" = some v ∧
       (widgetBacked initWidgets "custom" "x" = false →
         valueAt (save_config initWidgets
             (("custom", JVal.obj [("x", .int 7)]) :: freshDefaults)).1 "custom" "x" =
           some v))) :=
  ⟨rfl, C7_unknown_entries_preserved (.parsed c7File)
    [("custom", JVal.obj [("x", .int 7)])] initWidgets _ _ "custom" "x"
    (by decide) rfl rfl⟩

end ConfigEditor

namespace ConfigEditor

/-- C8 counterexample: the validator bounds only constrain text typed into
the UI; load happily returns a document whose integer field
money.starting_money holds the out-of-range value -5 read from the file. -/
theorem C8_counterexample_out_of_range :
    ∃ cfg w2,
      load_config (.parsed (.obj [("money", .obj [("starting_money", .int (-5))])]))
        initWidgets = .ok (cfg, w2) ∧
      valueAt cfg "money" "starting_money" = some (.int (-5)) :=
  ⟨_, _, rfl, rfl⟩

/-- C8 amended: value types are stable across the UI round-trip rather
than at every point after load: if the loaded document is well-typed
(integers in 0..999999999, booleans boolean), then committing the
populated registry succeeds, the full document is written, and the
commit result is well-typed again with every recognized field holding
the same value as before the round-trip. -/
theorem C8_type_stability_roundtrip (fs : FileState) (w : Widgets) (cfg : Dict)
    (w2 : Widgets)
    (hwf : WidgetsWf w)
    (hload : load_config fs w = .ok (cfg, w2))
    (htype : typeOk cfg = true) :
    (save_config w2 cfg).2 = some (save_config w2 cfg).1 ∧
    typeOk (save_config w2 cfg).1 = true ∧
    ∀ p ∈ FALLBACK_DEFAULTS, ∀ f ∈ p.2,
      valueAt (save_config w2 cfg).1 p.1 f.1 = valueAt cfg p.1 f.1 := by
  obtain ⟨-, hui⟩ := load_config_ok_inv fs w cfg w2 hload
  obtain ⟨w1, hpe, hw2⟩ := populate_ui_ok_inv cfg w w2 hui
  have hpok : populateOk cfg w = true := populateEntries_ok_inv cfg w w1 hpe
  have hw1 : w1 = populateResult cfg w := populateEntries_ok_result cfg w w1 hpe
  obtain ⟨cfg2, hc, hvals⟩ := populate_commit_roundtrip w cfg hwf hpok htype
  have hcw2 : commitAll w2 cfg = (cfg2, none) := by
    rw [hw2, hw1, commitAll_apply_feature_dependencies, hc]
  have hsave : save_config w2 cfg = (cfg2, some cfg2) :=
    save_config_of_commit_ok w2 cfg cfg2 hcw2
  rw [hsave]
  exact ⟨rfl, typeOk_of_agree cfg cfg2 hvals htype, hvals⟩

/-- C8 witness: the amended theorem applied to a missing file, whose load
yields the well-typed default document. -/
theorem C8_type_stability_roundtrip_witness :
    typeOk freshDefaults = true ∧
    ((save_config (apply_feature_dependencies (populateResult freshDefaults initWidgets))
        freshDefaults).2 =
      some (save_config (apply_feature_dependencies (populateResult freshDefaults initWidgets))
        freshDefaults).1 ∧
     typeOk (save_config (apply_feature_dependencies (populateResult freshDefaults initWidgets))
        freshDefaults).1 = true ∧
     ∀ p ∈ FALLBACK_DEFAULTS, ∀ f ∈ p.2,
       valueAt (save_config (apply_feature_dependencies (populateResult freshDefaults initWidgets))
         freshDefaults).1 p.1 f.1 = valueAt freshDefaults p.1 f.1) :=
  ⟨by decide, C8_type_stability_roundtrip .missing initWidgets freshDefaults _
    (by decide) rfl (by decide)⟩

/-- The (category, field) pairs whose widgets apply_feature_dependencies
disables when roleplay is off: the three dependent feature toggles and
every field of the civilian and police group boxes. -/
def dependentField (cat k : String) : Bool :=
  (cat = "features" && dependentFeatureKeys.contains k) || cat = "civilian" || cat = "police"

/-- C9: with the gating field features.roleplay_enabled false in the
document, disabling is presentation-only: apply_feature_dependencies
changes nothing about what commit reads, the commit of the populated
registry succeeds, and every dependent field's persisted value round-trips
unchanged through commit. -/
theorem C9_disabled_values_roundtrip (w : Widgets) (cfg : Dict)
    (hwf : WidgetsWf w) (hpok : populateOk cfg w = true) (htype : typeOk cfg = true)
    (hgate : valueAt cfg "features" "roleplay_enabled" = some (.bool false)) :
    commitAll (apply_feature_dependencies (populateResult cfg w)) cfg =
      commitAll (populateResult cfg w) cfg ∧
    ∃ cfg2, commitAll (apply_feature_dependencies (populateResult cfg w)) cfg = (cfg2, none) ∧
      ∀ p ∈ FALLBACK_DEFAULTS, ∀ f ∈ p.2, dependentField p.1 f.1 = true →
        valueAt cfg2 p.1 f.1 = valueAt cfg p.1 f.1 := by
  refine ⟨commitAll_apply_feature_dependencies _ cfg, ?_⟩
  obtain ⟨cfg2, hc, hvals⟩ := populate_commit_roundtrip w cfg hwf hpok htype
  refine ⟨cfg2, ?_, ?_⟩
  · rw [commitAll_apply_feature_dependencies, hc]
  · intro p hp f hf hdep
    exact hvals p hp f hf

/-- The default document with roleplay disabled. -/
def c9Doc : Dict :=
  [("features",
     .obj [("roleplay_enabled", .bool false), ("money_per_minute_enabled", .bool true),
       ("cool_message_enabled", .bool true), ("speeding_bonus_enabled", .bool true),
       ("zigzag_bonus_enabled", .bool true), ("police_features_enabled", .bool true)]),
   ("general", .obj [("autosave_interval_ms", .int 120000)]),
   ("money",
     .obj [("money_per_minute_interval_ms", .int 60000), ("money_per_minute_amount", .int 10),
       ("starting_money", .int 3333), ("cool_message_interval_ms", .int 30000)]),
   ("civilian",
     .obj [("speeding_limit_kmh", .int 100), ("speeding_bonus_duration_ms", .int 60000),
       ("speeding_cooldown_ms", .int 200000), ("speeding_bonus_per_second", .int 1),
       ("zigzag_bonus_duration_ms", .int 120000), ("zigzag_cooldown_ms", .int 200000),
       ("zigzag_final_bonus_amount", .int 50), ("zigzag_prorated_bonus", .int 5),
       ("min_speed_kmh_for_zigzag", .int 10), ("zigzag_min_turns", .int 5),
       ("wanted_fail_penalty", .int 50)]),
   ("police",
     .obj [("police_proximity_range_m", .int 150), ("busted_range_m", .int 20),
       ("busted_stop_time_ms", .int 7000), ("busted_speed_limit_kmh", .int 5),
       ("police_bonus_per_second", .int 2), ("bust_bonus_amount", .int 100)])]

/-- C9 witness: the round-trip theorem applied to the default document
with roleplay disabled and the initial registry. -/
theorem C9_disabled_values_roundtrip_witness :
    valueAt c9Doc "features" "roleplay_enabled" = some (.bool false) ∧
    (commitAll (apply_feature_dependencies (populateResult c9Doc initWidgets)) c9Doc =
       commitAll (populateResult c9Doc initWidgets) c9Doc ∧
     ∃ cfg2, commitAll (apply_feature_dependencies (populateResult c9Doc initWidgets)) c9Doc =
         (cfg2, none) ∧
       ∀ p ∈ FALLBACK_DEFAULTS, ∀ f ∈ p.2, dependentField p.1 f.1 = true →
         valueAt cfg2 p.1 f.1 = valueAt c9Doc p.1 f.1) :=
  ⟨by decide, C9_disabled_values_roundtrip initWidgets c9Doc (by decide) (by decide)
    (by decide) (by decide)⟩

end ConfigEditor

namespace ConfigEditor

/-! ### A heap model of the defaults table and the two-level copies

config_data and FALLBACK_DEFAULTS are Python dicts: the dict comprehension
of lines 359 and 402 copies both mapping levels (v.copy() allocates a fresh
inner dict per category), load's defaulting assigns fresh empty dicts and
immutable scalars, and save_config mutates config_data's inner dicts in
place.  The heap model makes the addresses explicit so that the absence of
aliasing between config_data and FALLBACK_DEFAULTS is a theorem rather
than a byproduct of a pure embedding. -/

/-- A heap of inner-dict cells, addressed by allocation order. -/
def Heap := List (Nat × Dict)

def hread : Heap → Nat → Dict
  | [], _ => []
  | (a2, c) :: rest, a => if a2 = a then c else hread rest a

def hwrite : Heap → Nat → Dict → Heap
  | [], a, c => [(a, c)]
  | (a2, c2) :: rest, a, c =>
    if a2 = a then (a2, c) :: rest else (a2, c2) :: hwrite rest a c

/-- The mutable program state: the heap, the bump allocator's next fresh
address, and config_data as a map from category names to inner-dict
addresses. -/
structure CState where
  heap : Heap
  next : Nat
  doc : List (String × Nat)

/-- The number of compiled-in defaults categories; their inner dicts live
at addresses 0 to 4. -/
def numDefaults : Nat := 5

/-- The outer mapping of FALLBACK_DEFAULTS: category name to the address
of its compiled-in inner dict. -/
def defaultsDoc : List (String × Nat) :=
  List.zip (FALLBACK_DEFAULTS.map Prod.fst) (List.range numDefaults)

/-- The compiled-in inner dicts of FALLBACK_DEFAULTS in the heap. -/
def defaultsHeap : Heap :=
  List.zip (List.range numDefaults) (FALLBACK_DEFAULTS.map Prod.snd)

/-- The defaults table as read back through the heap. -/
def defaultsView (h : Heap) : List (String × Dict) :=
  defaultsDoc.map (fun p => (p.1, hread h p.2))

/-- Allocate one fresh inner dict and bind a category name to it. -/
def allocStep (s2 : CState) (name : String) (contents : Dict) : CState :=
  { heap := hwrite s2.heap s2.next contents,
    next := s2.next + 1,
    doc := s2.doc ++ [(name, s2.next)] }

/-- The dict comprehension of lines 359 and 402: config_data becomes a new
outer dict binding each defaults category to v.copy(), a freshly allocated
cell holding the current contents of that category's defaults cell. -/
def copyDefaults (s : CState) : CState :=
  defaultsDoc.foldl
    (fun s2 p => allocStep s2 p.1 (hread s2.heap p.2))
    { heap := s.heap, next := s.next, doc := [] }

/-- json.load: a parsed file builds an entirely fresh two-level structure
(one new cell per category of the parsed object). -/
def allocDoc (d : List (String × Dict)) (s : CState) : CState :=
  d.foldl
    (fun s2 p => allocStep s2 p.1 p.2)
    { heap := s.heap, next := s.next, doc := [] }

/-- One pass of the defaulting loop of lines 361 to 365 for one category:
setdefault into the existing inner dict in place, or bind the category to
a freshly allocated dict filled with the defaults. -/
def heapEnsure (s : CState) (cat : String) (fields : Dict) : CState :=
  match dget s.doc cat with
  | some a =>
    { s with heap := hwrite s.heap a (setdefaultAll (hread s.heap a) fields) }
  | none =>
    { heap := hwrite s.heap s.next (setdefaultAll [] fields),
      next := s.next + 1,
      doc := s.doc ++ [(cat, s.next)] }

/-- The whole defaulting loop of load_config. -/
def heapDefaulting (s : CState) : CState :=
  FALLBACK_DEFAULTS.foldl (fun s2 p => heapEnsure s2 p.1 p.2) s

/-- config_data as a plain two-level value, as the commit loop reads it. -/
def flatten (s : CState) : Dict :=
  s.doc.map (fun p => (p.1, JVal.obj (hread s.heap p.2)))

/-- save_config in the heap model: the commit loop's writes all go through
config_data's category addresses (self.config_data[category][key] = v);
the outer dict and the allocator are untouched. -/
def heapSave (w : Widgets) (s : CState) : CState :=
  { s with heap :=
      (s.doc.foldl (fun h p => hwrite h p.2 (catContents (commitAll w (flatten s)).1 p.1))
        s.heap) }

/-- One user-visible operation of the editor.  populate_ui only reads the
document, so load and reset are the category-copy (or fresh parse) followed
by the defaulting pass. -/
inductive Op
  | loadMissing
  | loadParsed (d : List (String × Dict))
  | save (w : Widgets)
  | resetConfirmed
  | resetDeclined

/-- The heap-level effect of each operation. -/
def step (s : CState) : Op → CState
  | .loadMissing => heapDefaulting (copyDefaults s)
  | .loadParsed d => heapDefaulting (allocDoc d s)
  | .save w => heapSave w s
  | .resetConfirmed => copyDefaults s
  | .resetDeclined => s

/-- The state at program start: only the compiled-in defaults exist. -/
def initState : CState :=
  { heap := defaultsHeap, next := numDefaults, doc := [] }

/-- The allocation discipline: every inner dict config_data points to sits
strictly above the defaults cells and below the allocator frontier. -/
def DocHigh (s : CState) : Prop :=
  (∀ p ∈ s.doc, numDefaults ≤ p.2 ∧ p.2 < s.next) ∧ numDefaults ≤ s.next

end ConfigEditor

namespace ConfigEditor

theorem hread_hwrite_ne (h : Heap) (a a2 : Nat) (c : Dict) (hne : a2 ≠ a) :
    hread (hwrite h a2 c) a = hread h a := by
  induction h with
  | nil =>
    show hread [(a2, c)] a = ([] : Dict)
    unfold hread
    rw [if_neg hne]
    rfl
  | cons hd tl ih =>
    obtain ⟨a3, c3⟩ := hd
    by_cases h3 : a3 = a2
    · subst h3
      show hread (if a3 = a3 then (a3, c) :: tl else (a3, c3) :: hwrite tl a3 c) a = _
      rw [if_pos rfl]
      show (if a3 = a then c else hread tl a) = (if a3 = a then c3 else hread tl a)
      rw [if_neg hne, if_neg hne]
    · show hread (if a3 = a2 then (a3, c) :: tl else (a3, c3) :: hwrite tl a2 c) a = _
      rw [if_neg h3]
      show (if a3 = a then c3 else hread (hwrite tl a2 c) a) = (if a3 = a then c3 else hread tl a)
      by_cases h4 : a3 = a
      · rw [if_pos h4, if_pos h4]
      · rw [if_neg h4, if_neg h4, ih]

theorem allocFold_frame (α : Type) (nm : α → String) (ct : CState → α → Dict) :
    ∀ (L : List α) (s2 : CState), numDefaults ≤ s2.next →
      (∀ p ∈ s2.doc, numDefaults ≤ p.2 ∧ p.2 < s2.next) →
      (numDefaults ≤ (L.foldl (fun s3 p => allocStep s3 (nm p) (ct s3 p)) s2).next ∧
       ∀ q ∈ (L.foldl (fun s3 p => allocStep s3 (nm p) (ct s3 p)) s2).doc,
         numDefaults ≤ q.2 ∧ q.2 < (L.foldl (fun s3 p => allocStep s3 (nm p) (ct s3 p)) s2).next) ∧
      ∀ a, a < numDefaults →
        hread (L.foldl (fun s3 p => allocStep s3 (nm p) (ct s3 p)) s2).heap a =
          hread s2.heap a := by
  intro L
  induction L with
  | nil => exact fun s2 hn hd => ⟨⟨hn, hd⟩, fun a ha => rfl⟩
  | cons p0 rest ih =>
    intro s2 hn hd
    rw [List.foldl_cons]
    have hn3 : numDefaults ≤ (allocStep s2 (nm p0) (ct s2 p0)).next := by
      show numDefaults ≤ s2.next + 1
      omega
    have hd3 : ∀ p ∈ (allocStep s2 (nm p0) (ct s2 p0)).doc,
        numDefaults ≤ p.2 ∧ p.2 < (allocStep s2 (nm p0) (ct s2 p0)).next := by
      intro p hp
      have hp2 : p ∈ s2.doc ++ [(nm p0, s2.next)] := hp
      rw [List.mem_append] at hp2
      cases hp2 with
      | inl h1 =>
        have := hd p h1
        show numDefaults ≤ p.2 ∧ p.2 < s2.next + 1
        omega
      | inr h2 =>
        rw [List.mem_singleton] at h2
        rw [h2]
        show numDefaults ≤ s2.next ∧ s2.next < s2.next + 1
        omega
    have hrec := ih (allocStep s2 (nm p0) (ct s2 p0)) hn3 hd3
    refine ⟨hrec.1, ?_⟩
    intro a ha
    rw [hrec.2 a ha]
    show hread (hwrite s2.heap s2.next (ct s2 p0)) a = hread s2.heap a
    apply hread_hwrite_ne
    omega

theorem copyDefaults_spec (s : CState) (hs : DocHigh s) :
    DocHigh (copyDefaults s) ∧
    ∀ a, a < numDefaults → hread (copyDefaults s).heap a = hread s.heap a := by
  have h := allocFold_frame (String × Nat) Prod.fst (fun s2 p => hread s2.heap p.2)
    defaultsDoc { heap := s.heap, next := s.next, doc := [] } hs.2
    (fun p hp => absurd hp (List.not_mem_nil p))
  exact ⟨⟨h.1.2, h.1.1⟩, h.2⟩

theorem allocDoc_spec (d : List (String × Dict)) (s : CState) (hs : DocHigh s) :
    DocHigh (allocDoc d s) ∧
    ∀ a, a < numDefaults → hread (allocDoc d s).heap a = hread s.heap a := by
  have h := allocFold_frame (String × Dict) Prod.fst (fun s2 p => p.2)
    d { heap := s.heap, next := s.next, doc := [] } hs.2
    (fun p hp => absurd hp (List.not_mem_nil p))
  exact ⟨⟨h.1.2, h.1.1⟩, h.2⟩

theorem heapEnsure_spec (s : CState) (cat : String) (fields : Dict) (hs : DocHigh s) :
    DocHigh (heapEnsure s cat fields) ∧
    ∀ a, a < numDefaults → hread (heapEnsure s cat fields).heap a = hread s.heap a := by
  unfold heapEnsure
  cases hg : dget s.doc cat with
  | some a2 =>
    have ha2 := hs.1 (cat, a2) (dget_mem _ _ _ hg)
    refine ⟨⟨hs.1, hs.2⟩, ?_⟩
    intro a ha
    show hread (hwrite s.heap a2 _) a = hread s.heap a
    apply hread_hwrite_ne
    have h5 : numDefaults ≤ a2 := ha2.1
    omega
  | none =>
    constructor
    · constructor
      · intro p hp
        have hp2 : p ∈ s.doc ++ [(cat, s.next)] := hp
        rw [List.mem_append] at hp2
        cases hp2 with
        | inl h1 =>
          have := hs.1 p h1
          show numDefaults ≤ p.2 ∧ p.2 < s.next + 1
          omega
        | inr h2 =>
          rw [List.mem_singleton] at h2
          rw [h2]
          have := hs.2
          show numDefaults ≤ s.next ∧ s.next < s.next + 1
          omega
      · show numDefaults ≤ s.next + 1
        have := hs.2
        omega
    · intro a ha
      show hread (hwrite s.heap s.next _) a = hread s.heap a
      apply hread_hwrite_ne
      have := hs.2
      omega

theorem heapDefaultingAux (L : List (String × Dict)) :
    ∀ s, DocHigh s →
      DocHigh (L.foldl (fun s2 p => heapEnsure s2 p.1 p.2) s) ∧
      ∀ a, a < numDefaults →
        hread (L.foldl (fun s2 p => heapEnsure s2 p.1 p.2) s).heap a = hread s.heap a := by
  induction L with
  | nil => exact fun s hs => ⟨hs, fun a ha => rfl⟩
  | cons p0 rest ih =>
    intro s hs
    rw [List.foldl_cons]
    have h1 := heapEnsure_spec s p0.1 p0.2 hs
    have h2 := ih (heapEnsure s p0.1 p0.2) h1.1
    refine ⟨h2.1, ?_⟩
    intro a ha
    rw [h2.2 a ha, h1.2 a ha]

theorem heapDefaulting_spec (s : CState) (hs : DocHigh s) :
    DocHigh (heapDefaulting s) ∧
    ∀ a, a < numDefaults → hread (heapDefaulting s).heap a = hread s.heap a :=
  heapDefaultingAux FALLBACK_DEFAULTS s hs

theorem writeFold_frame (L : List (String × Nat)) (C : String → Dict) :
    ∀ (h0 : Heap), (∀ p ∈ L, numDefaults ≤ p.2) →
      ∀ a, a < numDefaults →
        hread (L.foldl (fun h p => hwrite h p.2 (C p.1)) h0) a = hread h0 a := by
  induction L with
  | nil => exact fun h0 hL a ha => rfl
  | cons p0 rest ih =>
    intro h0 hL a ha
    rw [List.foldl_cons]
    rw [ih (hwrite h0 p0.2 (C p0.1)) (fun p hp => hL p (by simp [hp])) a ha]
    apply hread_hwrite_ne
    have := hL p0 (by simp)
    omega

theorem heapSave_spec (w : Widgets) (s : CState) (hs : DocHigh s) :
    DocHigh (heapSave w s) ∧
    ∀ a, a < numDefaults → hread (heapSave w s).heap a = hread s.heap a := by
  refine ⟨⟨hs.1, hs.2⟩, ?_⟩
  intro a ha
  show hread (s.doc.foldl (fun h p => hwrite h p.2 (catContents (commitAll w (flatten s)).1 p.1))
    s.heap) a = hread s.heap a
  exact writeFold_frame s.doc (fun n => catContents (commitAll w (flatten s)).1 n) s.heap
    (fun p hp => (hs.1 p hp).1) a ha

theorem step_preserves (s : CState) (op : Op) (hs : DocHigh s) :
    DocHigh (step s op) ∧
    ∀ a, a < numDefaults → hread (step s op).heap a = hread s.heap a := by
  cases op with
  | loadMissing =>
    have h1 := copyDefaults_spec s hs
    have h2 := heapDefaulting_spec (copyDefaults s) h1.1
    refine ⟨h2.1, fun a ha => ?_⟩
    show hread (heapDefaulting (copyDefaults s)).heap a = hread s.heap a
    rw [h2.2 a ha, h1.2 a ha]
  | loadParsed d =>
    have h1 := allocDoc_spec d s hs
    have h2 := heapDefaulting_spec (allocDoc d s) h1.1
    refine ⟨h2.1, fun a ha => ?_⟩
    show hread (heapDefaulting (allocDoc d s)).heap a = hread s.heap a
    rw [h2.2 a ha, h1.2 a ha]
  | save w => exact heapSave_spec w s hs
  | resetConfirmed => exact copyDefaults_spec s hs
  | resetDeclined => exact ⟨hs, fun a ha => rfl⟩

theorem steps_low_frame (ops : List Op) :
    ∀ s : CState, DocHigh s →
      DocHigh (ops.foldl step s) ∧
      ∀ a, a < numDefaults → hread (ops.foldl step s).heap a = hread s.heap a := by
  induction ops with
  | nil => exact fun s hs => ⟨hs, fun a ha => rfl⟩
  | cons op rest ih =>
    intro s hs
    rw [List.foldl_cons]
    have h1 := step_preserves s op hs
    have h2 := ih (step s op) h1.1
    exact ⟨h2.1, fun a ha => by rw [h2.2 a ha, h1.2 a ha]⟩

/-- C10: after any sequence of load, save and reset operations starting at
program start, the compiled-in defaults table read back through the heap is
exactly FALLBACK_DEFAULTS: the two-level copies handed to config_data are
fresh cells, every in-place mutation goes through config_data's addresses,
and the defaults cells are never written. -/
theorem C10_defaults_never_mutated (ops : List Op) :
    defaultsView (ops.foldl step initState).heap = FALLBACK_DEFAULTS := by
  have hinit : DocHigh initState :=
    ⟨fun p hp => absurd hp (List.not_mem_nil p), Nat.le_refl _⟩
  have hfr := (steps_low_frame ops initState hinit).2
  have h0 := hfr 0 (by decide)
  have h1 := hfr 1 (by decide)
  have h2 := hfr 2 (by decide)
  have h3 := hfr 3 (by decide)
  have h4 := hfr 4 (by decide)
  show [("features", hread (ops.foldl step initState).heap 0),
        ("general", hread (ops.foldl step initState).heap 1),
        ("money", hread (ops.foldl step initState).heap 2),
        ("civilian", hread (ops.foldl step initState).heap 3),
        ("police", hread (ops.foldl step initState).heap 4)] = FALLBACK_DEFAULTS
  rw [h0, h1, h2, h3, h4]
  decide

/-- C10 witness: the invariant evaluated on a concrete operation sequence
exercising load, save and both reset branches. -/
theorem C10_defaults_never_mutated_witness :
    defaultsView (List.foldl step initState
      [Op.loadMissing, Op.save initWidgets, Op.resetConfirmed,
       Op.loadParsed [("custom", [("x", JVal.int 7)])], Op.resetDeclined,
       Op.save initWidgets]).heap = FALLBACK_DEFAULTS :=
  C10_defaults_never_mutated
    [Op.loadMissing, Op.save initWidgets, Op.resetConfirmed,
     Op.loadParsed [("custom", [("x", JVal.int 7)])], Op.resetDeclined,
     Op.save initWidgets]

end ConfigEditor
